import Mathlib

/-!
Shallow embedding of the semantic core of the Shiika compiler
(class dictionary indexing, pattern-match lowering, type checking),
translated from the Rust sources, together with proofs of the
specification claims.

Definitions translated from files under the repository sources keep their
Rust names.  Parts of the repository that are referenced but whose
definitions are not among the provided sources (the `TermTy` core
operations, `Namespace`, `conforms`, `lookup_method`, `voidify`, …) are
modelled from the specification; each such definition carries a doc
comment starting with `Modelled from the spec`.
-/

set_option autoImplicit false

namespace Shiika

/-! ## Type universe (`shiika_core::ty`) -/

/-- Kind of a type-parameter reference (`shiika_core::ty::typaram_ref::TyParamKind`):
either a class type parameter (`class A<B>`) or a method type parameter
(`def foo<X>(...)`). -/
inductive TyParamKind where
  | Class
  | Method
deriving DecidableEq, Repr

mutual
/-- Literal (non-type-parameter) type (`shiika_core::ty::lit_ty::LitTy`):
a base name, type arguments, and a meta flag. -/
inductive LitTy where
  | mk (base_name : String) (type_args : List TermTy) (is_meta : Bool)

/-- Term type (`shiika_core::ty::TermTy`).  The Rust struct stores a cached
`fullname` alongside the body; the fullname is determined by the body, so the
embedding keeps only the body (`TyBody`): a literal type or a
type-parameter reference (`shiika_core::ty::typaram_ref::TyParamRef`, with
kind, name, index, bounds, and the `as_class` flag). -/
inductive TermTy where
  | TyRaw (lit : LitTy)
  | TyPara (kind : TyParamKind) (name : String) (idx : Nat)
           (upper_bound : LitTy) (lower_bound : LitTy) (as_class : Bool)
end

namespace LitTy

def base_name : LitTy → String
  | .mk n _ _ => n

def type_args : LitTy → List TermTy
  | .mk _ a _ => a

def is_meta : LitTy → Bool
  | .mk _ _ m => m

/-- `LitTy::raw`: a literal type with no type arguments and no meta flag. -/
def raw (base_name : String) : LitTy := .mk base_name [] false

/-- `LitTy::to_term_ty`. -/
def to_term_ty (l : LitTy) : TermTy := .TyRaw l

end LitTy

namespace ty

/-- `ty::raw(name)`: `Lit{name, [], false}`.
Modelled from the spec (§4.2); the constructor lives outside the provided
sources. -/
def raw (name : String) : TermTy := .TyRaw (.mk name [] false)

/-- `ty::spe(name, args)`: `Lit{name, args, false}`.
Modelled from the spec (§4.2). -/
def spe (name : String) (args : List TermTy) : TermTy := .TyRaw (.mk name args false)

/-- `ty::meta(name)`: `Lit{name, [], true}`.
Modelled from the spec (§4.2). -/
def meta (name : String) : TermTy := .TyRaw (.mk name [] true)

/-- `ty::nonmeta(names, args)`: literal type whose base name joins the
segments with `::`.  Modelled from the spec (§4.1, `class_fullname` joins
with `::`); used by `_resolve_typename`. -/
def nonmeta (names : List String) (args : List TermTy) : TermTy :=
  .TyRaw (.mk (String.intercalate "::" names) args false)

/-- `ty::typaram_ref(name, kind, idx)`: a `TyParamRef` with default bounds
`Object` / `Never` and `as_class = false`.  Modelled from the spec (§4.2). -/
def typaram_ref (name : String) (kind : TyParamKind) (idx : Nat) : TermTy :=
  .TyPara kind name idx (.mk "Object" [] false) (.mk "Never" [] false) false

end ty

mutual
/-- Structural equality of term types (the derived `PartialEq` on `TermTy`,
exposed as `TermTy::equals_to`; the spec (§3) states two term types are equal
iff structurally equal). -/
def TermTy.equals_to : TermTy → TermTy → Bool
  | .TyRaw a, .TyRaw b => LitTy.lit_eq a b
  | .TyPara k₁ n₁ i₁ u₁ l₁ a₁, .TyPara k₂ n₂ i₂ u₂ l₂ a₂ =>
    decide (k₁ = k₂) && n₁ == n₂ && i₁ == i₂ && LitTy.lit_eq u₁ u₂ &&
      LitTy.lit_eq l₁ l₂ && a₁ == a₂
  | _, _ => false

/-- Structural equality of literal types. -/
def LitTy.lit_eq : LitTy → LitTy → Bool
  | .mk n₁ a₁ m₁, .mk n₂ a₂ m₂ =>
    n₁ == n₂ && TermTy.list_eq a₁ a₂ && m₁ == m₂

/-- Structural equality of lists of term types. -/
def TermTy.list_eq : List TermTy → List TermTy → Bool
  | [], [] => true
  | x :: xs, y :: ys => TermTy.equals_to x y && TermTy.list_eq xs ys
  | _, _ => false
end

/-- Erasure of a type (`shiika_core::ty::erasure::Erasure`): base name plus
meta flag.  Modelled from the spec (§3): the struct itself is outside the
provided sources, but `LitTy::erasure` in the sources builds it from
`(base_name, is_meta)`. -/
structure Erasure where
  base_name : String
  is_meta : Bool
deriving DecidableEq, Repr

namespace Erasure

/-- `Erasure::nonmeta`. -/
def nonmeta (name : String) : Erasure := ⟨name, false⟩

/-- `Erasure::meta`. -/
def meta (name : String) : Erasure := ⟨name, true⟩

/-- Rendered type fullname of an erasure; meta types are named with the
`Meta:` marker (spec §3, §9: every class is also a value of type
`Meta:<Name>`). -/
def to_type_fullname (e : Erasure) : String :=
  if e.is_meta then "Meta:" ++ e.base_name else e.base_name

/-- The term type of an erasure: no type arguments. -/
def to_term_ty (e : Erasure) : TermTy := .TyRaw (.mk e.base_name [] e.is_meta)

end Erasure

/-- `LitTy::erasure` (source `lit_ty.rs`): `(base_name, is_meta)`. -/
def LitTy.erasure : LitTy → Erasure
  | .mk n _ m => ⟨n, m⟩

namespace TermTy

/-- Modelled from the spec: `TermTy::erasure`.  Removes type arguments
(spec §3).  For a type-parameter reference the erasure of the upper bound
is used. -/
def erasure : TermTy → Erasure
  | .TyRaw l => l.erasure
  | .TyPara _ _ _ ub _ _ => ub.erasure

/-- Modelled from the spec: `TermTy::is_void_type` — the type is exactly
the literal `Void` type. -/
def is_void_type (t : TermTy) : Bool := t.equals_to (ty.raw "Void")

/-- Modelled from the spec: `TermTy::is_never_type` — the type is exactly
the literal `Never` type (the bottom type, spec §4.2). -/
def is_never_type (t : TermTy) : Bool := t.equals_to (ty.raw "Never")

/-- Modelled from the spec: `TermTy::is_metaclass` — values of this type
are classes, i.e. the literal type carries `is_meta = true`. -/
def is_metaclass : TermTy → Bool
  | .TyRaw l => l.is_meta
  | .TyPara _ _ _ _ _ _ => false

/-- `TermTy::is_typaram_ref`: the body is a type-parameter reference. -/
def is_typaram_ref : TermTy → Bool
  | .TyRaw _ => false
  | .TyPara _ _ _ _ _ _ => true

/-- The kind of the type-parameter reference, when the type is one. -/
def typaram_kind : TermTy → Option TyParamKind
  | .TyRaw _ => none
  | .TyPara k _ _ _ _ _ => some k

/-- The index of the type-parameter reference, when the type is one. -/
def typaram_idx : TermTy → Option Nat
  | .TyRaw _ => none
  | .TyPara _ _ i _ _ _ => some i

/-- The lower bound of the type-parameter reference, when the type is
one. -/
def typaram_lower_bound : TermTy → Option LitTy
  | .TyRaw _ => none
  | .TyPara _ _ _ _ lb _ => some lb

/-- Modelled from the spec: `TermTy::instance_ty` — the type of the
instances of a class value (drops the meta flag; on a type-parameter
reference it drops the `as_class` flag). -/
def instance_ty : TermTy → TermTy
  | .TyRaw (.mk n a _) => .TyRaw (.mk n a false)
  | .TyPara k n i ub lb _ => .TyPara k n i ub lb false

/-- The type arguments of a literal type (empty for a type-parameter
reference). -/
def type_args : TermTy → List TermTy
  | .TyRaw l => l.type_args
  | .TyPara _ _ _ _ _ _ => []

/-- The base class name of a literal type (`TermTy::base_class_name`);
for a type-parameter reference, its name. -/
def base_class_name : TermTy → String
  | .TyRaw l => l.base_name
  | .TyPara _ n _ _ _ _ => n

end TermTy

mutual
/-- Modelled from the spec (§4.2): `TermTy::substitute(class_args,
method_args)` — recursively replace `TyParamRef` occurrences by index and
kind.  An index outside the supplied argument list leaves the reference
unchanged (the compiler only substitutes with full argument lists). -/
def TermTy.substitute (class_tyargs method_tyargs : List TermTy) : TermTy → TermTy
  | .TyRaw (.mk n args m) =>
    .TyRaw (.mk n (TermTy.substitute_list class_tyargs method_tyargs args) m)
  | .TyPara k n i ub lb ac =>
    match k with
    | .Class => (class_tyargs.get? i).getD (.TyPara k n i ub lb ac)
    | .Method => (method_tyargs.get? i).getD (.TyPara k n i ub lb ac)

/-- Substitution mapped over a list of type arguments. -/
def TermTy.substitute_list (class_tyargs method_tyargs : List TermTy) :
    List TermTy → List TermTy
  | [] => []
  | t :: ts =>
    TermTy.substitute class_tyargs method_tyargs t ::
      TermTy.substitute_list class_tyargs method_tyargs ts
end

/-! ## Errors (`skc_error` / `crate::error`) -/

/-- The five error kinds of the compiler (spec §7). -/
inductive ErrorKind where
  | SyntaxError
  | NameError
  | TypeError
  | ProgramError
  | InternalBug
deriving DecidableEq, Repr

/-- A compilation error: a tagged record with a kind and a message
(spec §7; the `locs` label is not modelled). -/
structure CompileError where
  kind : ErrorKind
  msg : String
deriving DecidableEq, Repr

namespace error

def syntax_error (msg : String) : CompileError := ⟨.SyntaxError, msg⟩

def name_error (msg : String) : CompileError := ⟨.NameError, msg⟩

def type_error (msg : String) : CompileError := ⟨.TypeError, msg⟩

def program_error (msg : String) : CompileError := ⟨.ProgramError, msg⟩

/-- A violated internal invariant (a Rust `panic!`/`unwrap` in the source
is modelled as this error value; spec §7 `InternalBug`). -/
def internal_bug (msg : String) : CompileError := ⟨.InternalBug, msg⟩

end error

/-- The error kind of a failed computation, if it failed. -/
def errKind {α : Type} : Except CompileError α → Option ErrorKind
  | .error e => some e.kind
  | .ok _ => none

/-! ## Names (`shiika_core::names`) -/

/-- `MethodFullname`: the owning type's name and the method first name. -/
structure MethodFullname where
  type_name : String
  first_name : String
deriving DecidableEq, Repr

/-- `method_fullname(class_fullname, first_name)`. -/
def method_fullname (type_name first_name : String) : MethodFullname :=
  ⟨type_name, first_name⟩

/-- `method_fullname_raw`. -/
def method_fullname_raw (type_name first_name : String) : MethodFullname :=
  ⟨type_name, first_name⟩

/-- Modelled from the spec: `ClassFullname::meta_name` — the name of the
sibling metaclass, written with the `Meta:` marker. -/
def meta_name (fullname : String) : String := "Meta:" ++ fullname

/-- Modelled from the spec (§4.1): a `Namespace` is a finite sequence of
class first-names. -/
abbrev Namespace := List String

namespace Namespace

/-- The root (empty) namespace. -/
def root : Namespace := []

def size (ns : Namespace) : Nat := ns.length

/-- `Namespace::head(n)`: the first `n` segments. -/
def head (ns : Namespace) (n : Nat) : List String := ns.take n

/-- `ns.class_fullname(x) = "::".join(ns ++ [x])` (spec §4.1). -/
def class_fullname (ns : Namespace) (x : String) : String :=
  String.intercalate "::" (ns ++ [x])

/-- `Namespace::add`. -/
def add (ns : Namespace) (x : String) : Namespace := ns ++ [x]

end Namespace

/-! ## Type parameters and method signatures (`shiika_core::ty`, `skc_hir::signature`) -/

/-- Variance of a type parameter (spec §3): invariant by default, or
covariant (`out`) / contravariant (`in`). -/
inductive Variance where
  | Invariant
  | Covariant
  | Contravariant
deriving DecidableEq, Repr

/-- Modelled from the spec (§3): `TyParam = {name, upper_bound,
lower_bound, variance}`; bounds default to `Object` / `Never`. -/
structure TyParam where
  name : String
  variance : Variance
  upper_bound : TermTy
  lower_bound : TermTy

/-- A type parameter with default bounds and default (invariant)
variance. -/
def TyParam.invariant (name : String) : TyParam :=
  ⟨name, .Invariant, ty.raw ("Object"), ty.raw ("Never")⟩

/-- `skc_hir::signature::MethodParam`. -/
structure MethodParam where
  name : String
  ty : TermTy

/-- `MethodParam::substitute` (source `signature.rs`). -/
def MethodParam.substitute (p : MethodParam) (class_tyargs method_tyargs : List TermTy) :
    MethodParam :=
  ⟨p.name, p.ty.substitute class_tyargs method_tyargs⟩

/-- `skc_hir::signature::MethodSignature`. -/
structure MethodSignature where
  fullname : MethodFullname
  ret_ty : TermTy
  params : List MethodParam
  typarams : List TyParam

/-- `MethodSignature::specialize` (source `signature.rs`): substitute type
parameters with type arguments in the return type and every parameter
type. -/
def MethodSignature.specialize (s : MethodSignature)
    (class_tyargs method_tyargs : List TermTy) : MethodSignature :=
  { fullname := s.fullname
    ret_ty := s.ret_ty.substitute class_tyargs method_tyargs
    params := s.params.map (fun p => p.substitute class_tyargs method_tyargs)
    typarams := s.typarams }

/-- `signature::signature_of_new` (source `signature.rs`). -/
def signature_of_new (metaclass_fullname : String)
    (init_params : List MethodParam) (instance_ty : TermTy) : MethodSignature :=
  { fullname := method_fullname metaclass_fullname ("new")
    ret_ty := instance_ty
    params := init_params
    typarams := [] }

/-- `signature::signature_of_initialize` (source `signature.rs`): fullname
`<class>#initialize`, return type `Void`. -/
def signature_of_init (class_fullname : String)
    (params : List MethodParam) : MethodSignature :=
  { fullname := method_fullname class_fullname ("initialize")
    ret_ty := ty.raw ("Void")
    params := params
    typarams := [] }

/-- `skc_hir::SkIVar`: an instance-variable slot. -/
structure SkIVar where
  idx : Nat
  name : String
  ty : TermTy
  readonly : Bool

/-- The ivar-name transformation `name.replace("@", "")`: drop every `@`
character. -/
def strip_at (s : String) : String :=
  ⟨s.data.filter (fun c => c ≠ '@')⟩

/-- Modelled from the spec: `SkIVar::accessor_name` — the name of the
auto-generated getter, the ivar name without the `@` marker. -/
def SkIVar.accessor_name (v : SkIVar) : String :=
  strip_at v.name

/-- Modelled from the spec: `skc_hir::Superclass` wraps the superclass
term type. -/
structure Superclass where
  ty : TermTy

namespace Superclass

/-- `Superclass::from_ty`. -/
def from_ty (t : TermTy) : Superclass := ⟨t⟩

/-- `Superclass::simple(name)`: a superclass with no type arguments. -/
def simple (name : String) : Superclass := ⟨ty.raw name⟩

/-- `Superclass::new(fullname, tyargs)`. -/
def make (fullname : String) (tyargs : List TermTy) : Superclass :=
  ⟨ty.spe fullname tyargs⟩

/-- `Superclass::default()`: `Object` (spec §4.3 / §9: when no superclass
is written the default is `Object`). -/
def dflt : Superclass := simple ("Object")

end Superclass

/-! ## The class dictionary (`skc_ast2hir::class_dict`, `skc_hir::SkType`) -/

/-- `skc_hir::SkTypeBase`: erasure, type parameters, method signatures
(a map from method first-name to signature, modelled as an association
list with first-match lookup), and the `foreign` flag. -/
structure SkTypeBase where
  erasure : Erasure
  typarams : List TyParam
  method_sigs : List (String × MethodSignature)
  foreign : Bool

/-- `skc_hir::SkClass`. -/
structure SkClass where
  base : SkTypeBase
  superclass : Option Superclass
  ivars : List (String × SkIVar)
  is_final : Option Bool
  const_is_obj : Bool

/-- `skc_hir::SkModule`. -/
structure SkModule where
  base : SkTypeBase
  requirements : List MethodSignature

/-- `skc_hir::SkType`: a class or a module. -/
inductive SkType where
  | Class (c : SkClass)
  | Module (m : SkModule)

/-- The shared base of a type. -/
def SkType.base : SkType → SkTypeBase
  | .Class c => c.base
  | .Module m => m.base

/-- `SkTypeBase::fullname_`: the rendered type fullname. -/
def SkTypeBase.fullname_ (b : SkTypeBase) : String := b.erasure.to_type_fullname

/-- Modelled from the spec: `SkTypeBase::term_ty` — the term type of the
class applied to references to its own type parameters (so that
substituting class type arguments specializes it; used by
`infer_pat_ty`). -/
def SkTypeBase.term_ty (b : SkTypeBase) : TermTy :=
  .TyRaw (.mk b.erasure.base_name
    (b.typarams.enum.map (fun p => ty.typaram_ref p.2.name .Class p.1))
    b.erasure.is_meta)

/-- The class dictionary (`skc_ast2hir::class_dict::ClassDict`): the
registry of every declared type keyed by rendered fullname, and the
`class_index` mapping known class fullnames to their type-parameter lists
(used during name resolution).  Hash maps are modelled as association
lists with first-match lookup; insertion prepends. -/
structure ClassDict where
  sk_types : List (String × SkType)
  class_index : List (String × List TyParam)

namespace ClassDict

/-- `ClassDict::find_type`. -/
def find_type (dict : ClassDict) (fullname : String) : Option SkType :=
  dict.sk_types.lookup fullname

/-- `ClassDict::lookup_class`: the registered type, when it is a class. -/
def lookup_class (dict : ClassDict) (fullname : String) : Option SkClass :=
  match dict.sk_types.lookup fullname with
  | some (.Class c) => some c
  | _ => none

/-- `ClassDict::add_type`: register a type under its fullname (a hash-map
insert, modelled as prepending). -/
def add_type (dict : ClassDict) (t : SkType) : ClassDict :=
  { dict with sk_types := (t.base.fullname_, t) :: dict.sk_types }

/-- Walk the superclass chain of a literal type (substituting type
arguments at every step, spec §4.2) until a type with the requested
erasure is found.  The fuel bounds the walk; on well-formed dictionaries
every chain terminates at `Object` (spec §8). -/
def find_ancestor (dict : ClassDict) : Nat → LitTy → Erasure → Option LitTy
  | 0, _, _ => none
  | fuel + 1, l, e =>
    if l.erasure = e then some l
    else
      match dict.lookup_class l.erasure.to_type_fullname with
      | some c =>
        match c.superclass with
        | some sc =>
          match sc.ty.substitute l.type_args [] with
          | .TyRaw l2 => find_ancestor dict fuel l2 e
          | .TyPara _ _ _ _ _ _ => none
        | none => none
      | none => none

end ClassDict

/-- Modelled from the spec (§4.2): subtype conformance `conforms(a, b)`.
Reflexive (structural equality); `Never` conforms to everything; a
`TyParamRef` conforms to `T` iff its upper bound does; `T` conforms to a
`TyParamRef` iff `T` conforms to the lower bound; a literal conforms to a
literal iff `a`'s superclass chain (including `a` itself) reaches `b`'s
erasure and the corresponding type arguments there satisfy
variance-appropriate conformance per the type parameters of `b`'s class
(`Fn` types carry the contravariant-parameter / covariant-return
variances on their type parameters).  The fuel bounds recursion depth. -/
def conforms_fuel (dict : ClassDict) : Nat → TermTy → TermTy → Bool
  | 0, _, _ => false
  | fuel + 1, a, b =>
    if a.equals_to b then true
    else if a.is_never_type then true
    else
      match a, b with
      | .TyPara _ _ _ ub _ _, _ => conforms_fuel dict fuel ub.to_term_ty b
      | .TyRaw la, .TyPara _ _ _ _ lb _ =>
        conforms_fuel dict fuel (.TyRaw la) lb.to_term_ty
      | .TyRaw la, .TyRaw lb =>
        match dict.find_ancestor (fuel + 1) la lb.erasure with
        | some anc =>
          let tps :=
            match dict.find_type lb.erasure.to_type_fullname with
            | some t => t.base.typarams
            | none => []
          anc.type_args.length == lb.type_args.length &&
          ((anc.type_args.zip lb.type_args).enum.all (fun p =>
            match ((tps.get? p.1).map TyParam.variance).getD .Invariant with
            | .Invariant => p.2.1.equals_to p.2.2
            | .Covariant => conforms_fuel dict fuel p.2.1 p.2.2
            | .Contravariant => conforms_fuel dict fuel p.2.2 p.2.1))
        | none => false

/-- `ClassDict::conforms` with a fuel large enough for every superclass
chain of the dictionary. -/
def ClassDict.conforms (dict : ClassDict) (a b : TermTy) : Bool :=
  conforms_fuel dict (100 + dict.sk_types.length) a b

/-- The result of `ClassDict::lookup_method`: the specialized signature
and the fullname of the type that owns the method. -/
structure FoundMethod where
  sig : MethodSignature
  owner : String

/-- Modelled from the spec (§4.3): `lookup_method` walks the receiver's
superclass chain, returning the first matching signature specialized by
the receiver's and the call's type arguments.  (Module inclusions are not
stored by the provided indexing source, so only the chain is walked.)
The fuel bounds the walk. -/
def lookup_method_fuel (dict : ClassDict) :
    Nat → TermTy → String → List TermTy → Except CompileError FoundMethod
  | 0, _, name, _ => .error (error.program_error ("method not found: " ++ name))
  | fuel + 1, receiver, name, method_tyargs =>
    match dict.find_type receiver.erasure.to_type_fullname with
    | none =>
      .error (error.program_error ("type not found: " ++ receiver.erasure.to_type_fullname))
    | some t =>
      match t.base.method_sigs.lookup name with
      | some sig =>
        .ok ⟨sig.specialize receiver.type_args method_tyargs, t.base.fullname_⟩
      | none =>
        match t with
        | .Class c =>
          match c.superclass with
          | some sc =>
            lookup_method_fuel dict fuel (sc.ty.substitute receiver.type_args [])
              name method_tyargs
          | none => .error (error.program_error ("method not found: " ++ name))
        | .Module _ => .error (error.program_error ("method not found: " ++ name))

/-- `ClassDict::lookup_method` with chain-length fuel. -/
def ClassDict.lookup_method (dict : ClassDict) (receiver : TermTy) (name : String)
    (method_tyargs : List TermTy) : Except CompileError FoundMethod :=
  lookup_method_fuel dict (100 + dict.sk_types.length) receiver name method_tyargs

/-! ## Name resolution (`skc_ast2hir::class_dict::indexing`) -/

/-- `shiika_ast::UnresolvedTypeName`: dotted name segments plus type
arguments. -/
inductive UnresolvedTypeName where
  | mk (names : List String) (args : List UnresolvedTypeName)

def UnresolvedTypeName.names : UnresolvedTypeName → List String
  | .mk n _ => n

def UnresolvedTypeName.args : UnresolvedTypeName → List UnresolvedTypeName
  | .mk _ a => a

/-- The loop of `_resolve_simple_typename` (source `indexing.rs`):
`for k in 0..=n`, try the first `n − k` namespace segments followed by
the queried segments, and return the first candidate present in the class
index.  `rem` counts the remaining iterations. -/
def resolve_simple_loop (dict : ClassDict) (ns : Namespace) (names : List String) :
    Nat → Nat → Except CompileError (List String × List TyParam)
  | 0, _ =>
    .error (error.name_error ("unknown type " ++ String.intercalate ("::") names))
  | rem + 1, k =>
    let resolved := ns.head (ns.size - k) ++ names
    match dict.class_index.lookup (String.intercalate "::" resolved) with
    | some typarams => .ok (resolved, typarams)
    | none => resolve_simple_loop dict ns names rem (k + 1)

/-- `_resolve_typename`'s helper `_resolve_simple_typename` (source
`indexing.rs`): resolve a type name without type arguments against the
namespace, also returning the typarams of the class. -/
def _resolve_simple_typename (dict : ClassDict) (ns : Namespace) (names : List String) :
    Except CompileError (List String × List TyParam) :=
  resolve_simple_loop dict ns names (ns.size + 1) 0

mutual
/-- `_resolve_typename` (source `indexing.rs`): a single-segment name with
no type arguments that matches a class type parameter (checked first) or a
method type parameter resolves to the corresponding `TyParamRef`;
otherwise the name is resolved against the namespace and the type-argument
count is checked. -/
def _resolve_typename (dict : ClassDict) (ns : Namespace)
    (class_typarams method_typarams : List TyParam) :
    UnresolvedTypeName → Except CompileError TermTy
  | .mk names args =>
    let typaram_hit : Option TermTy :=
      if args.isEmpty then
        match names with
        | [s] =>
          match class_typarams.findIdx? (fun t => t.name == s) with
          | some idx => some (ty.typaram_ref s .Class idx)
          | none =>
            match method_typarams.findIdx? (fun t => t.name == s) with
            | some idx => some (ty.typaram_ref s .Method idx)
            | none => none
        | _ => none
      else none
    match typaram_hit with
    | some t => .ok t
    | none => do
      let tyargs ← _resolve_typename_list dict ns class_typarams method_typarams args
      let resolved ← _resolve_simple_typename dict ns names
      if args.length ≠ resolved.2.length then
        .error (error.type_error ("wrong number of type arguments"))
      else
        .ok (ty.nonmeta resolved.1 tyargs)

/-- Resolution mapped over the type-argument list. -/
def _resolve_typename_list (dict : ClassDict) (ns : Namespace)
    (class_typarams method_typarams : List TyParam) :
    List UnresolvedTypeName → Except CompileError (List TermTy)
  | [] => .ok []
  | a :: as_ => do
    let t ← _resolve_typename dict ns class_typarams method_typarams a
    let ts ← _resolve_typename_list dict ns class_typarams method_typarams as_
    .ok (t :: ts)
end

/-- `shiika_ast::Param`: a method or enum-case parameter. -/
structure AstParam where
  name : String
  typ : UnresolvedTypeName

/-- `ClassDict::convert_params` (source `indexing.rs`). -/
def convert_params (dict : ClassDict) (ns : Namespace) (ast_params : List AstParam)
    (class_typarams method_typarams : List TyParam) :
    Except CompileError (List MethodParam) :=
  match ast_params with
  | [] => .ok []
  | p :: ps => do
    let t ← _resolve_typename dict ns class_typarams method_typarams p.typ
    let rest ← convert_params dict ns ps class_typarams method_typarams
    .ok (⟨p.name, t⟩ :: rest)

/-- `shiika_ast::AstMethodSignature`.  The AST type-parameter list is
modelled already parsed (`parse_typarams` is outside the provided
sources). -/
structure AstMethodSignature where
  name : String
  params : List AstParam
  ret_typ : Option UnresolvedTypeName
  typarams : List TyParam

/-- `ClassDict::create_signature` (source `indexing.rs`): the return type
defaults to `Void` when omitted; parameter and return types are resolved
with class and method type parameters in scope. -/
def create_signature (dict : ClassDict) (ns : Namespace) (class_fullname : String)
    (sig : AstMethodSignature) (class_typarams : List TyParam) :
    Except CompileError MethodSignature := do
  let method_typarams := sig.typarams
  let ret_ty ←
    match sig.ret_typ with
    | some typ => _resolve_typename dict ns class_typarams method_typarams typ
    | none => .ok (ty.raw ("Void"))
  let params ← convert_params dict ns sig.params class_typarams method_typarams
  .ok { fullname := method_fullname class_fullname sig.name
        ret_ty := ret_ty
        params := params
        typarams := method_typarams }

/-- The loop of `_resolve_supers` (source `indexing.rs`), carrying the
modules collected so far and the superclass found so far. -/
def resolve_supers_loop (dict : ClassDict) (ns : Namespace)
    (class_typarams : List TyParam) :
    List UnresolvedTypeName → List Superclass → Option Superclass →
    Except CompileError (Superclass × List Superclass)
  | [], modules, superclass => .ok (superclass.getD Superclass.dflt, modules)
  | name :: rest, modules, superclass => do
    let t ← _resolve_typename dict ns class_typarams [] name
    match dict.find_type t.erasure.to_type_fullname with
    | some (.Class c) =>
      if !modules.isEmpty then
        .error (error.program_error ("superclass must be the first"))
      else if superclass.isSome then
        .error (error.program_error ("only one superclass is allowed"))
      else
        match c.is_final with
        | none => .error (error.internal_bug ("is_final not set"))
        | some final =>
          if final then
            .error (error.program_error ("inheriting this class is not allowed"))
          else
            resolve_supers_loop dict ns class_typarams rest modules
              (some (Superclass.from_ty t))
    | some (.Module _) =>
      resolve_supers_loop dict ns class_typarams rest
        (modules ++ [Superclass.from_ty t]) superclass
    | none => .error (error.program_error ("unknown class or module"))

/-- `ClassDict::_resolve_supers` (source `indexing.rs`): resolve the
superclass and the included-module names of a class definition. -/
def _resolve_supers (dict : ClassDict) (ns : Namespace)
    (class_typarams : List TyParam) (supers : List UnresolvedTypeName) :
    Except CompileError (Superclass × List Superclass) :=
  resolve_supers_loop dict ns class_typarams supers [] none

/-- Classification of one supers-list entry: the resolved type and the
registered type, when both steps of the classification performed by
`_resolve_supers` succeed. -/
def super_resolution (dict : ClassDict) (ns : Namespace) (ctp : List TyParam)
    (name : UnresolvedTypeName) : Option (TermTy × SkType) :=
  match _resolve_typename dict ns ctp [] name with
  | .ok t =>
    match dict.find_type t.erasure.to_type_fullname with
    | some st => some (t, st)
    | none => none
  | .error _ => none

/-- The entry names a registered class. -/
def super_is_class (dict : ClassDict) (ns : Namespace) (ctp : List TyParam)
    (name : UnresolvedTypeName) : Bool :=
  match super_resolution dict ns ctp name with
  | some (_, .Class _) => true
  | _ => false

/-- The entry names a registered final class. -/
def super_is_final (dict : ClassDict) (ns : Namespace) (ctp : List TyParam)
    (name : UnresolvedTypeName) : Bool :=
  match super_resolution dict ns ctp name with
  | some (_, .Class c) => c.is_final == some true
  | _ => false

/-- The resolved type of the entry, when it names a registered module. -/
def super_module_ty (dict : ClassDict) (ns : Namespace) (ctp : List TyParam)
    (name : UnresolvedTypeName) : Option TermTy :=
  match super_resolution dict ns ctp name with
  | some (t, .Module _) => some t
  | _ => none

/-- When the entry names a registered class, its `is_final` flag is set
(the flag being absent makes `_resolve_supers` panic in the source). -/
def super_final_defined (dict : ClassDict) (ns : Namespace) (ctp : List TyParam)
    (name : UnresolvedTypeName) : Bool :=
  match super_resolution dict ns ctp name with
  | some (_, .Class c) => c.is_final != none
  | _ => true

/-! ## HIR expressions (`skc_hir`) -/

/-- Source location span (spec §6).  The variants relevant to the claims
are the `todo` placeholder used by the pattern-match lowering and the
internal sentinel; the concrete positions are never inspected. -/
inductive LocationSpan where
  | todo
  | internal
deriving DecidableEq, Repr

mutual
/-- `skc_hir::HirExpression`: a type, a location span, and a node
(spec §3). -/
inductive HirExpression where
  | mk (ty : TermTy) (locs : LocationSpan) (node : HirExpressionBase)

/-- The `HirExpressionBase` variants used by the embedded passes
(spec §3 lists the full set; unused variants are omitted as no embedded
function produces or consumes them). -/
inductive HirExpressionBase where
  | string_literal (idx : Nat)
  | decimal_literal (value : Int)
  | boolean_literal (value : Bool)
  | float_literal (bits : Nat)
  | lvar_ref (name : String)
  | lvar_assign (name : String) (rhs : HirExpression)
  | const_ref (fullname : String)
  | method_call (receiver : HirExpression) (method : MethodFullname)
      (args : List HirExpression)
  | bit_cast (expr : HirExpression)
  | match_expression (cond_assign : HirExpression) (clauses : List MatchClause)

/-- `skc_hir::HirExpressions`: an expression sequence with the type of its
last expression. -/
inductive HirExpressions where
  | mk (ty : TermTy) (exprs : List HirExpression)

/-- `skc_hir::pattern_match::MatchClause` (source `pattern_match.rs`). -/
inductive MatchClause where
  | mk (components : List Component) (body_hir : HirExpressions)
      (lvars : List (String × TermTy))

/-- `skc_hir::pattern_match::Component` (source `pattern_match.rs`):
a boolean test or a local-variable binding. -/
inductive Component where
  | Test (expr : HirExpression)
  | Bind (name : String) (expr : HirExpression)
end

def HirExpression.ty : HirExpression → TermTy
  | .mk t _ _ => t

def HirExpression.locs : HirExpression → LocationSpan
  | .mk _ l _ => l

def HirExpression.node : HirExpression → HirExpressionBase
  | .mk _ _ n => n

def HirExpressions.ty : HirExpressions → TermTy
  | .mk t _ => t

def HirExpressions.exprs : HirExpressions → List HirExpression
  | .mk _ e => e

def MatchClause.components : MatchClause → List Component
  | .mk c _ _ => c

def MatchClause.body_hir : MatchClause → HirExpressions
  | .mk _ b _ => b

def MatchClause.lvars : MatchClause → List (String × TermTy)
  | .mk _ _ l => l

namespace Hir

/-- `Hir::lvar_ref`. -/
def lvar_ref (t : TermTy) (name : String) (locs : LocationSpan) : HirExpression :=
  .mk t locs (.lvar_ref name)

/-- `Hir::lvar_assign`: the assignment's type is the right-hand side's. -/
def lvar_assign (name : String) (rhs : HirExpression) (locs : LocationSpan) :
    HirExpression :=
  .mk rhs.ty locs (.lvar_assign name rhs)

/-- `Hir::string_literal`: type `String`, carrying the intern index. -/
def string_literal (idx : Nat) (locs : LocationSpan) : HirExpression :=
  .mk (ty.raw ("String")) locs (.string_literal idx)

/-- `Hir::decimal_literal`: type `Int`. -/
def decimal_literal (value : Int) (locs : LocationSpan) : HirExpression :=
  .mk (ty.raw ("Int")) locs (.decimal_literal value)

/-- `Hir::boolean_literal`: type `Bool`. -/
def boolean_literal (value : Bool) (locs : LocationSpan) : HirExpression :=
  .mk (ty.raw ("Bool")) locs (.boolean_literal value)

/-- `Hir::float_literal`: type `Float`; the payload is carried as a bit
pattern and never computed with. -/
def float_literal (bits : Nat) (locs : LocationSpan) : HirExpression :=
  .mk (ty.raw ("Float")) locs (.float_literal bits)

/-- `Hir::const_ref`. -/
def const_ref (t : TermTy) (fullname : String) (locs : LocationSpan) : HirExpression :=
  .mk t locs (.const_ref fullname)

/-- `Hir::method_call(result_ty, receiver, fullname, args)`. -/
def method_call (result_ty : TermTy) (receiver : HirExpression)
    (method : MethodFullname) (args : List HirExpression) : HirExpression :=
  .mk result_ty .todo (.method_call receiver method args)

/-- `Hir::bit_cast(ty, expr)`: a subtype coercion marker. -/
def bit_cast (t : TermTy) (expr : HirExpression) : HirExpression :=
  .mk t expr.locs (.bit_cast expr)

/-- `Hir::expressions`: the sequence's type is the last expression's, or
`Void` when empty. -/
def expressions (exprs : List HirExpression) : HirExpressions :=
  .mk (((exprs.getLast?).map HirExpression.ty).getD (ty.raw ("Void"))) exprs

/-- `Hir::match_expression`. -/
def match_expression (result_ty : TermTy) (cond_assign : HirExpression)
    (clauses : List MatchClause) (locs : LocationSpan) : HirExpression :=
  .mk result_ty locs (.match_expression cond_assign clauses)

end Hir

/-- Modelled from the spec (§3 lifecycle, and the source comment in
`hir_maker.rs`: insert `::Void` so that the last expression always matches
the return type): `HirExpressions::voidify` appends a reference to the
`::Void` constant and makes the sequence's type `Void`. -/
def HirExpressions.voidify (es : HirExpressions) : HirExpressions :=
  .mk (ty.raw ("Void"))
    (es.exprs ++ [Hir.const_ref (ty.raw ("Void")) ("::Void") .internal])

/-- Modelled from the spec (§3 lifecycle: bitcasting a match clause body
to the common result type): `HirExpressions::bitcast_to` wraps the last
expression in a bitcast and retypes the sequence. -/
def HirExpressions.bitcast_to (es : HirExpressions) (t : TermTy) : HirExpressions :=
  match es.exprs.getLast? with
  | some last => .mk t (es.exprs.dropLast ++ [Hir.bit_cast t last])
  | none => .mk t []

/-! ## The HIR builder state (`HirMaker`, `hir_maker_context`) -/

/-- A local variable declared in a context frame
(`hir_maker_context::CtxLVar`). -/
structure CtxLVar where
  ty : TermTy
  readonly : Bool

/-- The context-stack frames used by the embedded passes
(`hir_maker_context::HirMakerContext`; spec §4.5 lists Toplevel, Class,
Method, Lambda, MatchClause, While — the frames not exercised by the
claims are represented without their payload). -/
inductive HirMakerContext where
  | toplevel (lvars : List (String × CtxLVar))
  | classCtx (ns : Namespace) (typarams : List TyParam)
  | methodCtx (signature : MethodSignature)
      (super_ivars : Option (List (String × SkIVar)))
      (lvars : List (String × CtxLVar)) (iivars : List (String × SkIVar))
  | matchClauseCtx (lvars : List (String × CtxLVar))
  | lambdaCtx
  | whileCtx

/-- `HirMakerContext::match_clause()`: a fresh match-clause frame. -/
def HirMakerContext.match_clause : HirMakerContext := .matchClauseCtx []

/-- The HIR builder state (`hir_maker::HirMaker`); the fields not touched
by the embedded passes (constants, method dict, lambda counter) are
omitted. -/
structure HirMaker where
  class_dict : ClassDict
  str_literals : List String
  ctx_stack : List HirMakerContext
  gensym_ct : Nat

namespace HirMaker

/-- `HirMaker::generate_lvar_name`: `"<prefix>@<n>_"`, bumping the gensym
counter. -/
def generate_lvar_name (mk : HirMaker) (pre : String) : String × HirMaker :=
  (pre ++ "@" ++ toString mk.gensym_ct ++ "_",
   { mk with gensym_ct := mk.gensym_ct + 1 })

/-- Modelled from the spec (§4.5: string literals are interned into a
per-program vector): `HirMaker::register_string_literal` appends the
string and returns its index. -/
def register_string_literal (mk : HirMaker) (s : String) : Nat × HirMaker :=
  (mk.str_literals.length, { mk with str_literals := mk.str_literals ++ [s] })

/-- `HirMaker::convert_string_literal`: a string-literal node carrying the
intern index. -/
def convert_string_literal (mk : HirMaker) (s : String) (locs : LocationSpan) :
    HirExpression × HirMaker :=
  let (idx, mk2) := mk.register_string_literal s
  (Hir.string_literal idx locs, mk2)

/-- `CtxStack::push`. -/
def push_ctx (mk : HirMaker) (c : HirMakerContext) : HirMaker :=
  { mk with ctx_stack := c :: mk.ctx_stack }

/-- `CtxStack::declare_lvar`: record a local variable on the innermost
frame. -/
def declare_lvar (mk : HirMaker) (name : String) (t : TermTy) (readonly : Bool) :
    HirMaker :=
  match mk.ctx_stack with
  | [] => mk
  | c :: rest =>
    let c2 :=
      match c with
      | .toplevel lvars => HirMakerContext.toplevel ((name, ⟨t, readonly⟩) :: lvars)
      | .methodCtx sig si lvars iivars =>
        .methodCtx sig si ((name, ⟨t, readonly⟩) :: lvars) iivars
      | .matchClauseCtx lvars => .matchClauseCtx ((name, ⟨t, readonly⟩) :: lvars)
      | other => other
    { mk with ctx_stack := c2 :: rest }

/-- `CtxStack::pop_match_clause_ctx`: pop the innermost frame, which must
be a match-clause frame (a violation is a Rust panic, modelled as
`InternalBug`). -/
def pop_match_clause_ctx (mk : HirMaker) :
    Except CompileError (List (String × CtxLVar) × HirMaker) :=
  match mk.ctx_stack with
  | .matchClauseCtx lvars :: rest => .ok (lvars, { mk with ctx_stack := rest })
  | _ => .error (error.internal_bug ("pop_match_clause_ctx"))

/-- `CtxStack::pop_method_ctx`: pop the innermost frame, which must be a
method frame. -/
def pop_method_ctx (mk : HirMaker) :
    Except CompileError ((MethodSignature × Option (List (String × SkIVar)) ×
      List (String × CtxLVar) × List (String × SkIVar)) × HirMaker) :=
  match mk.ctx_stack with
  | .methodCtx sig si lvars iivars :: rest =>
    .ok ((sig, si, lvars, iivars), { mk with ctx_stack := rest })
  | _ => .error (error.internal_bug ("pop_method_ctx"))

end HirMaker

/-- `hir_maker::extract_lvars`: forget the readonly flags (the source
drains a hash map; the iteration order is the list order here). -/
def extract_lvars (lvars : List (String × CtxLVar)) : List (String × TermTy) :=
  lvars.map (fun p => (p.1, p.2.ty))

/-! ## Type checking (`skc_ast2hir::type_system::type_checking`) -/

/-- `check_return_value` (source `type_checking.rs`): a `Void` return type
accepts everything; a `TyParamRef` return type accepts a structurally
equal type outright and otherwise checks conformance against its lower
bound; any other return type checks conformance directly. -/
def check_return_value (dict : ClassDict) (sig : MethodSignature) (t : TermTy) :
    Except CompileError Unit :=
  if sig.ret_ty.is_void_type then .ok ()
  else
    let want : Option TermTy :=
      match sig.ret_ty with
      | .TyPara _ _ _ _ lb _ =>
        if t.equals_to sig.ret_ty then none else some lb.to_term_ty
      | other => some other
    match want with
    | none => .ok ()
    | some w =>
      if dict.conforms t w then .ok ()
      else .error (error.type_error ("should return the declared type"))

/-- The inferred argument types produced by method-call inference
(`type_inference::method_call_inf::MethodCallInf3`; only the field read by
`check_arg_types` is modelled). -/
structure MethodCallInf3 where
  solved_method_arg_tys : List TermTy

/-- `check_method_arity` (source `type_checking.rs`): the actual argument
count must equal the declared parameter count. -/
def check_method_arity (sig : MethodSignature) (arg_hirs : List HirExpression) :
    Except CompileError Unit :=
  if sig.params.length ≠ arg_hirs.length then
    .error (error.type_error ("wrong number of args"))
  else .ok ()

/-- `check_arg_type` (source `type_checking.rs`): the argument must
conform to the inferred type when present, otherwise to the declared
parameter type. -/
def check_arg_type (dict : ClassDict) (arg_hir : HirExpression) (param : MethodParam)
    (inferred : Option TermTy) : Except CompileError Unit :=
  let expected := inferred.getD param.ty
  if dict.conforms arg_hir.ty expected then .ok ()
  else if inferred.isSome then
    .error (error.type_error ("the argument is inferred to another type"))
  else
    .error (error.type_error ("the argument should be the declared type"))

/-- The loop of `check_arg_types` (source `type_checking.rs`):
`for i in 0..sig.params.len()`.  Out-of-bounds indexing (a Rust panic) is
modelled as `InternalBug`. -/
def check_arg_types_loop (dict : ClassDict) (sig : MethodSignature)
    (arg_hirs : List HirExpression) (inf : Option MethodCallInf3) :
    Nat → Nat → Except CompileError Unit
  | 0, _ => .ok ()
  | rem + 1, i =>
    match sig.params.get? i, arg_hirs.get? i with
    | some param, some arg_hir => do
      let inferred ←
        match inf with
        | some x =>
          match x.solved_method_arg_tys.get? i with
          | some t => .ok (some t)
          | none => .error (error.internal_bug ("inference arity"))
        | none => .ok none
      check_arg_type dict arg_hir param inferred
      check_arg_types_loop dict sig arg_hirs inf rem (i + 1)
    | _, _ => .error (error.internal_bug ("argument index out of bounds"))

/-- `check_arg_types` (source `type_checking.rs`). -/
def check_arg_types (dict : ClassDict) (sig : MethodSignature)
    (arg_hirs : List HirExpression) (inf : Option MethodCallInf3) :
    Except CompileError Unit :=
  check_arg_types_loop dict sig arg_hirs inf sig.params.length 0

/-- `check_method_args` (source `type_checking.rs`): arity first, then
argument types (the `dbg!` logging on failure has no semantic effect). -/
def check_method_args (dict : ClassDict) (sig : MethodSignature)
    (arg_hirs : List HirExpression) (inf : Option MethodCallInf3) :
    Except CompileError Unit := do
  check_method_arity sig arg_hirs
  check_arg_types dict sig arg_hirs inf

/-! ## Method lowering (`hir_maker.rs`, `convert_method_def_`) -/

/-- AST expressions are consumed only by the abstract expression
converters; the embedding represents them by an identifier. -/
structure AstExpression where
  node_id : Nat

/-- `skc_hir::SkMethodBody`: a Shiika body (HIR expressions) or a
generated closure body. -/
inductive SkMethodBody where
  | ShiikaMethodBody (exprs : HirExpressions)
  | RustClosureMethodBody

/-- `skc_hir::SkMethod`. -/
structure SkMethod where
  signature : MethodSignature
  body : SkMethodBody
  lvars : List (String × TermTy)

/-- Modelled from the spec (§4.3): `ClassDict::find_method` — the
signature registered for the method on the named type, if any. -/
def ClassDict.find_method (dict : ClassDict) (type_fullname name : String) :
    Option MethodSignature :=
  match dict.find_type type_fullname with
  | some t => t.base.method_sigs.lookup name
  | none => none

/-- The sub-converters and analyses used by the embedded passes whose
definitions lie outside the provided sources (general expression
conversion, capitalized-name conversion, class-literal construction,
nearest-common-ancestor).  The theorems quantify over them. -/
structure ConvertEnv where
  convertExpr : HirMaker → AstExpression →
    Except CompileError (HirExpression × HirMaker)
  convertExprs : HirMaker → List AstExpression →
    Except CompileError (HirExpressions × HirMaker)
  convertCapitalizedName : HirMaker → List String →
    Except CompileError (HirExpression × HirMaker)
  classExpr : HirMaker → TermTy → (HirExpression × HirMaker)
  nearest_common_ancestor : TermTy → TermTy → Option TermTy

/-- `HirMaker::convert_method_def_` (source `hir_maker.rs`): look up the
signature, push a method frame, convert the body, voidify it when the
declared return type is `Void`, pop the frame, and check the body type
against the signature. -/
def convert_method_def_ (env : ConvertEnv) (mk : HirMaker)
    (class_fullname name : String) (body_exprs : List AstExpression)
    (super_ivars : Option (List (String × SkIVar))) :
    Except CompileError ((SkMethod × List (String × SkIVar)) × HirMaker) := do
  match mk.class_dict.find_method class_fullname name with
  | none => .error (error.internal_bug ("signature not found"))
  | some signature =>
    let mk1 := mk.push_ctx (.methodCtx signature super_ivars [] [])
    let (hir_exprs0, mk2) ← env.convertExprs mk1 body_exprs
    let hir_exprs :=
      if signature.ret_ty.is_void_type then hir_exprs0.voidify else hir_exprs0
    let (mctx, mk3) ← mk2.pop_method_ctx
    let lvars := extract_lvars mctx.2.2.1
    check_return_value mk3.class_dict signature hir_exprs.ty
    .ok ((⟨signature, .ShiikaMethodBody hir_exprs, lvars⟩, mctx.2.2.2), mk3)

/-! ## Pattern-match lowering (`skc_ast2hir::pattern_match`) -/

mutual
/-- Modelled from the spec: the rendered fullname of a term type (used as
a dictionary key and to name the constant of a singleton case); only
equality of these strings matters. -/
def TermTy.fullname : TermTy → String
  | .TyRaw (.mk n args m) =>
    let base :=
      if args.isEmpty then n
      else n ++ "<" ++ String.intercalate ", " (TermTy.fullname_list args) ++ ">"
    if m then "Meta:" ++ base else base
  | .TyPara _ n _ _ _ _ => n

/-- Fullname rendering mapped over type arguments. -/
def TermTy.fullname_list : List TermTy → List String
  | [] => []
  | t :: ts => TermTy.fullname t :: TermTy.fullname_list ts
end

/-- Modelled from the spec: `ClassFullname::to_const_fullname` — the
toplevel constant naming the class (or the sole instance), written with
the `::` marker. -/
def to_const_fullname (name : String) : String := "::" ++ name

/-- `shiika_ast::AstPattern` (spec §4.5): wildcard and variable patterns,
literal patterns (the float payload is carried as a bit pattern), and
extractor patterns. -/
inductive AstPattern where
  | ExtractorPattern (names : List String) (params : List AstPattern)
  | VariablePattern (name : String)
  | BooleanLiteralPattern (b : Bool)
  | IntegerLiteralPattern (i : Int)
  | FloatLiteralPattern (bits : Nat)
  | StringLiteralPattern (s : String)

/-- `check_ty_raw` (source `pattern_match.rs`): the scrutinee type must be
exactly the named primitive type. -/
def check_ty_raw (value : HirExpression) (name : String) : Except CompileError Unit :=
  if !value.ty.equals_to (ty.raw name) then
    .error (error.type_error ("expr never matches the literal type"))
  else .ok ()

/-- `make_eq_test` (source `pattern_match.rs`): the component
`value == rhs` via the primitive `==`. -/
def make_eq_test (value : HirExpression) (name : String) (rhs : HirExpression) :
    Component :=
  .Test (Hir.method_call (ty.raw ("Bool")) value (method_fullname_raw name ("==")) [rhs])

/-- `get_base_ty` (source `pattern_match.rs`): the erasure of the class
the extractor names — the instance type of a class value or
type-parameter reference, or the type itself for a singleton case object;
anything else is a type error. -/
def get_base_ty (env : ConvertEnv) (mk : HirMaker) (names : List String) :
    Except CompileError (Erasure × HirMaker) := do
  let (expr, mk1) ← env.convertCapitalizedName mk names
  if expr.ty.is_metaclass || expr.ty.is_typaram_ref then
    .ok (expr.ty.instance_ty.erasure, mk1)
  else
    match mk1.class_dict.lookup_class expr.ty.fullname with
    | some cls =>
      if cls.const_is_obj then .ok (expr.ty.erasure, mk1)
      else .error (error.type_error ("a class expected"))
    | none => .error (error.type_error ("a class expected"))

/-- `infer_pat_ty` (source `pattern_match.rs`): the pattern type is the
named class with type arguments propagated from the scrutinee's type (a
missing dictionary entry is a Rust panic). -/
def infer_pat_ty (mk : HirMaker) (pat_base_ty : Erasure) (value_ty : TermTy) :
    Except CompileError TermTy :=
  match value_ty with
  | .TyRaw (.mk _ type_args _) =>
    match mk.class_dict.find_type pat_base_ty.to_type_fullname with
    | some sk_type => .ok (sk_type.base.term_ty.substitute type_args [])
    | none => .error (error.internal_bug ("get_type"))
  | .TyPara _ _ _ _ _ _ => .ok pat_base_ty.to_term_ty

/-- `class_props` (source `pattern_match.rs`): the names and types of the
parameters of the class's `#initialize`. -/
def class_props (mk : HirMaker) (cls : TermTy) :
    Except CompileError (List (String × TermTy)) := do
  let found ← mk.class_dict.lookup_method cls ("initialize") []
  .ok (found.sig.params.map (fun x => (x.name, x.ty)))

/-- `test_class` (source `pattern_match.rs`): `value.class.erasure_class
== C` for a normal class, or `C == value` (identity against the constant)
for a singleton case object. -/
def test_class (env : ConvertEnv) (mk : HirMaker) (value : HirExpression)
    (pat_ty : TermTy) : Except CompileError (HirExpression × HirMaker) :=
  let pat_erasure := pat_ty.erasure
  match mk.class_dict.lookup_class pat_erasure.to_type_fullname with
  | none => .error (error.internal_bug ("get_class"))
  | some t =>
    if t.const_is_obj then
      let const_ref := Hir.const_ref pat_ty (to_const_fullname pat_ty.fullname) .todo
      .ok (Hir.method_call (ty.raw ("Bool")) const_ref
        (method_fullname_raw ("Object") ("==")) [value], mk)
    else
      let (cls_ref, mk2) := env.classExpr mk pat_erasure.to_term_ty
      .ok (Hir.method_call (ty.raw ("Bool"))
        (Hir.method_call (ty.raw ("Class"))
          (Hir.method_call (ty.raw ("Class")) value
            (method_fullname_raw ("Object") ("class")) [])
          (method_fullname_raw ("Class") ("erasure_class")) [])
        (method_fullname_raw ("Class") ("==")) [cls_ref], mk2)

mutual
/-- `convert_match` (source `pattern_match.rs`): create the components for
a match against one pattern. -/
def convert_match (env : ConvertEnv) (mk : HirMaker) (value : HirExpression) :
    AstPattern → Except CompileError (List Component × HirMaker)
  | .ExtractorPattern names params => convert_extractor env mk value names params
  | .VariablePattern name =>
    if name == "_" then .ok ([], mk)
    else .ok ([.Bind name value], mk)
  | .BooleanLiteralPattern b => do
    check_ty_raw value ("Bool")
    .ok ([make_eq_test value ("Bool") (Hir.boolean_literal b .todo)], mk)
  | .IntegerLiteralPattern i => do
    check_ty_raw value ("Int")
    .ok ([make_eq_test value ("Int") (Hir.decimal_literal i .todo)], mk)
  | .FloatLiteralPattern bits => do
    check_ty_raw value ("Float")
    .ok ([make_eq_test value ("Float") (Hir.float_literal bits .todo)], mk)
  | .StringLiteralPattern s => do
    check_ty_raw value ("String")
    let p := mk.convert_string_literal s .todo
    .ok ([make_eq_test value ("String") p.1], p.2)
termination_by pat => (sizeOf pat, 0)

/-- `convert_extractor` (source `pattern_match.rs`): infer the pattern
type, reject non-conforming patterns with a type error, compile the
sub-patterns, and prepend the class-identity test. -/
def convert_extractor (env : ConvertEnv) (mk : HirMaker) (value : HirExpression)
    (names : List String) (param_patterns : List AstPattern) :
    Except CompileError (List Component × HirMaker) := do
  let (pat_base_ty, mk1) ← get_base_ty env mk names
  let pat_ty ← infer_pat_ty mk1 pat_base_ty value.ty
  if !mk1.class_dict.conforms pat_ty value.ty then
    .error (error.type_error ("expr never matches the pattern type"))
  else do
    let cast_value := Hir.bit_cast pat_ty value
    let (components, mk2) ← extract_props env mk1 cast_value pat_ty param_patterns
    let (test, mk3) ← test_class env mk2 value pat_ty
    .ok (Component.Test test :: components, mk3)
termination_by (sizeOf param_patterns, 2)

/-- `extract_props` (source `pattern_match.rs`): the sub-pattern count
must equal the arity of the class's `#initialize` (else a program error);
each sub-pattern is compiled against the corresponding getter call. -/
def extract_props (env : ConvertEnv) (mk : HirMaker) (value : HirExpression)
    (pat_ty : TermTy) (patterns : List AstPattern) :
    Except CompileError (List Component × HirMaker) := do
  let ivars ← class_props mk pat_ty
  if ivars.length ≠ patterns.length then
    .error (error.program_error ("pattern count mismatch"))
  else
    extract_props_loop env mk value pat_ty ivars patterns
termination_by (sizeOf patterns, 1)

/-- The loop of `extract_props`, pairing each ivar with its sub-pattern. -/
def extract_props_loop (env : ConvertEnv) (mk : HirMaker) (value : HirExpression)
    (pat_ty : TermTy) :
    List (String × TermTy) → List AstPattern →
    Except CompileError (List Component × HirMaker)
  | [], [] => .ok ([], mk)
  | iv :: ivs, p :: ps => do
    let name := strip_at iv.1
    let ivar_ref := Hir.method_call iv.2 value
      (method_fullname pat_ty.base_class_name name) []
    let (cs, mk2) ← convert_match env mk ivar_ref p
    let (rest, mk3) ← extract_props_loop env mk2 value pat_ty ivs ps
    .ok (cs ++ rest, mk3)
  | _, _ => .error (error.internal_bug ("extract_props_loop"))
termination_by _ patterns => (sizeOf patterns, 0)
end

/-- Voidify a clause body (the `c.body_hir.voidify()` call in
`calc_result_ty`). -/
def MatchClause.voidify (c : MatchClause) : MatchClause :=
  ⟨c.components, c.body_hir.voidify, c.lvars⟩

/-- `bitcast_match_clause_body` (source `pattern_match.rs`):
destructively bitcast a clause body. -/
def bitcast_match_clause_body (c : MatchClause) (t : TermTy) : MatchClause :=
  ⟨c.components, c.body_hir.bitcast_to t, c.lvars⟩

/-- The nearest-common-ancestor fold of `calc_result_ty` (source
`pattern_match.rs`): starting from the first non-`Never` body type, fold
over all non-`Never` clauses; a missing common ancestor is a type
error. -/
def calc_nca_loop (nca : TermTy → TermTy → Option TermTy) :
    List MatchClause → TermTy → Except CompileError TermTy
  | [], t => .ok t
  | c :: cs, t =>
    match nca t c.body_hir.ty with
    | some t2 => calc_nca_loop nca cs t2
    | none => .error (error.type_error ("match clause type mismatch"))

/-- `calc_result_ty` (source `pattern_match.rs`): `Never` when every
clause body is `Never`; `Void` (voidifying the other non-`Never` bodies)
when some non-`Never` body is `Void`; otherwise the folded nearest common
ancestor, bitcasting every differing non-`Never` body.  Returns the
result type together with the updated clauses (the source mutates them in
place). -/
def calc_result_ty (nca : TermTy → TermTy → Option TermTy)
    (clauses : List MatchClause) :
    Except CompileError (TermTy × List MatchClause) :=
  let nn := clauses.filter (fun c => !c.body_hir.ty.is_never_type)
  if nn.isEmpty then .ok (ty.raw ("Never"), clauses)
  else if nn.any (fun c => c.body_hir.ty.is_void_type) then
    .ok (ty.raw ("Void"),
      clauses.map (fun c =>
        if !c.body_hir.ty.is_never_type && !c.body_hir.ty.is_void_type then
          c.voidify
        else c))
  else
    match nn with
    | [] => .error (error.internal_bug ("unreachable"))
    | c0 :: _ => do
      let t ← calc_nca_loop nca nn c0.body_hir.ty
      .ok (t,
        clauses.map (fun c =>
          if !c.body_hir.ty.is_never_type && !c.body_hir.ty.equals_to t then
            bitcast_match_clause_body c t
          else c))

/-- The synthetic final clause appended by `convert_match_expr`: no
components (so it always matches), and a body that calls `Object#panic`
on the interned message at index `idx`. -/
def panic_clause (idx : Nat) : MatchClause :=
  ⟨[],
   Hir.expressions [Hir.method_call (ty.raw ("Never"))
     (Hir.decimal_literal 0 .todo) (method_fullname_raw ("Object") ("panic"))
     [Hir.string_literal idx .todo]],
   []⟩

/-- `compile_body` (source `pattern_match.rs`): push a match-clause
frame, declare the binds as readonly locals, convert the body, pop the
frame. -/
def compile_body (env : ConvertEnv) (mk : HirMaker) (components : List Component)
    (body : List AstExpression) :
    Except CompileError ((HirExpressions × List (String × TermTy)) × HirMaker) := do
  let mk1 := mk.push_ctx HirMakerContext.match_clause
  let mk2 := components.foldl (fun m comp =>
    match comp with
    | .Bind name expr => m.declare_lvar name expr.ty true
    | .Test _ => m) mk1
  let (hir_exprs, mk3) ← env.convertExprs mk2 body
  let (clvars, mk4) ← mk3.pop_match_clause_ctx
  .ok ((hir_exprs, extract_lvars clvars), mk4)

/-- `convert_match_clause` (source `pattern_match.rs`). -/
def convert_match_clause (env : ConvertEnv) (mk : HirMaker) (value : HirExpression)
    (clause : AstPattern × List AstExpression) :
    Except CompileError (MatchClause × HirMaker) := do
  let (components, mk1) ← convert_match env mk value clause.1
  let (bl, mk2) ← compile_body env mk1 components clause.2
  .ok (⟨components, bl.1, bl.2⟩, mk2)

/-- The clause-conversion loop of `convert_match_expr`. -/
def convert_clauses_loop (env : ConvertEnv) (value : HirExpression) :
    HirMaker → List (AstPattern × List AstExpression) →
    Except CompileError (List MatchClause × HirMaker)
  | mk, [] => .ok ([], mk)
  | mk, cl :: cls => do
    let (c, mk1) ← convert_match_clause env mk value cl
    let (cs, mk2) ← convert_clauses_loop env value mk1 cls
    .ok (c :: cs, mk2)

/-- `convert_match_expr` (source `pattern_match.rs`): evaluate the
scrutinee into a fresh local, convert every clause, compute the result
type, and append the synthetic panic clause. -/
def convert_match_expr (env : ConvertEnv) (mk : HirMaker) (cond : AstExpression)
    (ast_clauses : List (AstPattern × List AstExpression)) :
    Except CompileError ((HirExpression × List (String × TermTy)) × HirMaker) := do
  let (cond_expr, mk1) ← env.convertExpr mk cond
  let (tmp_name, mk2) := mk1.generate_lvar_name ("expr")
  let tmp_ref := Hir.lvar_ref cond_expr.ty tmp_name .todo
  let (clauses0, mk3) ← convert_clauses_loop env tmp_ref mk2 ast_clauses
  let (result_ty, clauses1) ← calc_result_ty env.nearest_common_ancestor clauses0
  let (idx, mk4) := mk3.register_string_literal ("no matching clause found")
  let clauses := clauses1 ++ [panic_clause idx]
  let lvars := [(tmp_name, cond_expr.ty)]
  let tmp_assign := Hir.lvar_assign tmp_name cond_expr .todo
  .ok ((Hir.match_expression result_ty tmp_assign clauses .todo, lvars), mk4)

/-! ## Enum-case indexing (`skc_ast2hir::class_dict::indexing`) -/

/-- `shiika_ast::EnumCase`: a case name and its parameters. -/
structure EnumCase where
  name : String
  params : List AstParam

/-- Modelled from the spec: `ClassFirstname::add_namespace` — prepend the
enclosing fullname with the `::` separator (no separator at the root). -/
def add_namespace (name enclosing : String) : String :=
  if enclosing == "" then name else enclosing ++ "::" ++ name

/-- `ClassDict::add_new_class` (source `indexing.rs`): register the class
and its metaclass (a subclass of `Class` sharing `Class`'s ivars; the
lookup of `Class` is a Rust panic when absent). -/
def ClassDict.add_new_class (dict : ClassDict) (fullname : String)
    (typarams : List TyParam) (superclass : Superclass)
    (new_sig : Option MethodSignature)
    (instance_methods class_methods : List (String × MethodSignature))
    (is_final : Option Bool) (const_is_obj : Bool) :
    Except CompileError ClassDict :=
  let class_methods2 :=
    match new_sig with
    | some sig => (sig.fullname.first_name, sig) :: class_methods
    | none => class_methods
  let base : SkTypeBase := ⟨Erasure.nonmeta fullname, typarams, instance_methods, false⟩
  let dict1 := dict.add_type (.Class ⟨base, some superclass, [], is_final, const_is_obj⟩)
  match dict1.lookup_class ("Class") with
  | none => .error (error.internal_bug ("class Class not found"))
  | some the_class =>
    let mbase : SkTypeBase := ⟨Erasure.meta fullname, typarams, class_methods2, false⟩
    .ok (dict1.add_type (.Class
      ⟨mbase, some (Superclass.simple ("Class")), the_class.ivars, none, false⟩))

/-- Setting the ivars of a registered class (modules unchanged). -/
def set_ivars (ivars : List (String × SkIVar)) : SkType → SkType
  | .Class c => .Class { c with ivars := ivars }
  | m => m

/-- Modelled from the spec: `ClassDict::define_ivars` — record the ivars
of the named class (a missing entry is a Rust panic). -/
def ClassDict.define_ivars (dict : ClassDict) (fullname : String)
    (ivars : List (String × SkIVar)) : Except CompileError ClassDict :=
  match dict.sk_types.lookup fullname with
  | none => .error (error.internal_bug ("define_ivars: class not found"))
  | some _ =>
    .ok { dict with
      sk_types := dict.sk_types.map (fun p =>
        if p.1 == fullname then (p.1, set_ivars ivars p.2) else p) }

/-- The loop of `_enum_case_ivars` (source `indexing.rs`), carrying the
slot index. -/
def enum_case_ivars_loop (dict : ClassDict) (ns : Namespace)
    (typarams : List TyParam) : Nat → List AstParam →
    Except CompileError (List SkIVar)
  | _, [] => .ok []
  | idx, p :: ps => do
    let t ← _resolve_typename dict ns typarams [] p.typ
    let rest ← enum_case_ivars_loop dict ns typarams (idx + 1) ps
    .ok (⟨idx, p.name, t, true⟩ :: rest)

/-- `ClassDict::_enum_case_ivars` (source `indexing.rs`): one readonly
ivar per case parameter, in order. -/
def _enum_case_ivars (dict : ClassDict) (ns : Namespace) (typarams : List TyParam)
    (case : EnumCase) : Except CompileError (List SkIVar) :=
  enum_case_ivars_loop dict ns typarams 0 case.params

/-- `enum_case_superclass` (source `indexing.rs`): the enum applied to
`Never` for each type parameter when the case has no parameters, and to
references to the enum's own type parameters otherwise. -/
def enum_case_superclass (enum_fullname : String) (typarams : List TyParam)
    (case : EnumCase) : Superclass :=
  if case.params.isEmpty then
    Superclass.make enum_fullname (typarams.map (fun _ => ty.raw ("Never")))
  else
    Superclass.make enum_fullname
      (typarams.enum.map (fun p => ty.typaram_ref p.2.name .Class p.1))

/-- `enum_case_new_sig` (source `indexing.rs`): the signatures of `.new`
and `#initialize` of an enum case. -/
def enum_case_new_sig (ivar_list : List SkIVar) (typarams : List TyParam)
    (fullname : String) : MethodSignature × MethodSignature :=
  let params : List MethodParam := ivar_list.map (fun v => ⟨v.name, v.ty⟩)
  let ret_ty :=
    if ivar_list.isEmpty then ty.raw fullname
    else ty.spe fullname
      (typarams.enum.map (fun p => ty.typaram_ref p.2.name .Class p.1))
  (signature_of_new (meta_name fullname) params ret_ty,
   signature_of_init fullname params)

/-- `enum_case_getters` (source `indexing.rs`): a getter signature per
ivar. -/
def enum_case_getters (case_fullname : String) (ivars : List SkIVar) :
    List (String × MethodSignature) :=
  ivars.map (fun v =>
    (v.name,
     { fullname := method_fullname case_fullname v.accessor_name
       ret_ty := v.ty
       params := []
       typarams := [] }))

/-- `ClassDict::index_enum_case` (source `indexing.rs`): register an enum
case as a subclass of the enum. -/
def index_enum_case (dict : ClassDict) (ns : Namespace) (enum_fullname : String)
    (typarams : List TyParam) (case : EnumCase) : Except CompileError ClassDict := do
  let ivar_list ← _enum_case_ivars dict ns typarams case
  let fullname := add_namespace case.name enum_fullname
  let superclass := enum_case_superclass enum_fullname typarams case
  let sigs := enum_case_new_sig ivar_list typarams fullname
  let instance_methods :=
    ("initialize", sigs.2) :: enum_case_getters fullname ivar_list
  let case_typarams := if case.params.isEmpty then [] else typarams
  let dict1 ← dict.add_new_class fullname case_typarams superclass (some sigs.1)
    instance_methods [] (some true) case.params.isEmpty
  let ivars := ivar_list.map (fun x => (x.name, x))
  dict1.define_ivars fullname ivars

/-! ## Concrete fixtures used by witnesses and counterexamples -/

/-- A class entry for the fixture dictionary. -/
def fixClass (name : String) (sup : Option String)
    (sigs : List (String × MethodSignature)) (cio : Bool) : String × SkType :=
  (name, .Class ⟨⟨⟨name, false⟩, [], sigs, false⟩, sup.map Superclass.simple, [],
    some false, cio⟩)

/-- A signature returning `Void`, used to probe the return-value check. -/
def voidSig : MethodSignature :=
  { fullname := method_fullname ("Foo") ("bar")
    ret_ty := ty.raw ("Void")
    params := []
    typarams := [] }

/-- A signature with one `Int` parameter, used to probe the argument
checks. -/
def intSig : MethodSignature :=
  { fullname := method_fullname ("Foo") ("baz")
    ret_ty := ty.raw ("Int")
    params := [⟨"a", ty.raw ("Int")⟩]
    typarams := [] }

/-- A small concrete class dictionary: the core classes, a `Maybe`-style
case class with a one-parameter `#initialize`, two plain classes, a final
class, and a module. -/
def testDict : ClassDict :=
  { sk_types := [
      fixClass ("Object") none [] false,
      fixClass ("Class") (some ("Object")) [] false,
      fixClass ("Int") (some ("Object")) [] false,
      fixClass ("Void") (some ("Object")) [] false,
      fixClass ("Never") (some ("Object")) [] false,
      fixClass ("Maybe") (some ("Object")) [] false,
      ("Maybe::Some", .Class ⟨⟨⟨"Maybe::Some", false⟩, [],
        [("initialize", signature_of_init ("Maybe::Some") [⟨"v", ty.raw ("Int")⟩])],
        false⟩, some (Superclass.simple ("Maybe")), [], some false, false⟩),
      fixClass ("Foo") (some ("Object")) [(("bar"), voidSig), (("baz"), intSig)] false,
      fixClass ("Bar") (some ("Object")) [] false,
      ("Fin1", .Class ⟨⟨⟨"Fin1", false⟩, [], [], false⟩,
        some (Superclass.simple ("Object")), [], some true, false⟩),
      ("M1", .Module ⟨⟨⟨"M1", false⟩, [], [], false⟩, []⟩)]
    class_index := [("Object", []), ("Class", []), ("Int", []), ("Void", []),
      ("Never", []), ("Maybe", []), ("Maybe::Some", []), ("Foo", []), ("Bar", []),
      ("Fin1", []), ("M1", [])] }

/-- A harmless HIR expression for fixtures. -/
def dummyExpr : HirExpression := Hir.decimal_literal 0 .todo

/-- A concrete conversion environment whose sub-converters succeed with
fixed results. -/
def testEnv : ConvertEnv :=
  { convertExpr := fun mk _ => .ok (dummyExpr, mk)
    convertExprs := fun mk _ => .ok (Hir.expressions [dummyExpr], mk)
    convertCapitalizedName := fun mk _ =>
      .ok (.mk (ty.meta ("Maybe::Some")) .todo (.const_ref ("::Maybe::Some")), mk)
    classExpr := fun mk _ => (dummyExpr, mk)
    nearest_common_ancestor := fun a b => if a.equals_to b then some a else none }

/-- A concrete HIR-builder state over the fixture dictionary. -/
def testMk : HirMaker := ⟨testDict, [], [], 0⟩

/-- An unresolvable type name over the empty dictionary. -/
def emptyDict : ClassDict := ⟨[], []⟩

/-- A parameterless enum case. -/
def enumCase0 : EnumCase := ⟨"None", []⟩

/-- The unresolved name `Foo`. -/
def unFoo : UnresolvedTypeName := .mk [("Foo")] []

/-- The unresolved name `Bar`. -/
def unBar : UnresolvedTypeName := .mk [("Bar")] []

/-- A match clause whose body is the `Int` fixture expression. -/
def mc2 : MatchClause := ⟨[], Hir.expressions [dummyExpr], []⟩

/-- A scrutinee of type `Maybe`. -/
def valMaybe : HirExpression := Hir.lvar_ref (ty.raw ("Maybe")) ("m") .todo

/-- A concrete nearest-common-ancestor function: defined on equal types
only. -/
def nca2 : TermTy → TermTy → Option TermTy :=
  fun a b => if a.equals_to b then some a else none

/-- The dictionary produced by indexing `enumCase0` into the fixture
dictionary as a case of `Maybe`. -/
def d9out : ClassDict :=
  match index_enum_case testDict [] ("Maybe") [] enumCase0 with
  | .ok d => d
  | .error _ => emptyDict

/-! # Theorems

General helper lemmas first, then one main theorem per claim (with its
witness or counterexample where required). -/

/-- Computation rule for `Except` bind on a success value. -/
theorem except_bind_ok {α β : Type} (a : α) (f : α → Except CompileError β) :
    (Except.ok a : Except CompileError α) >>= f = f a := rfl

/-- Computation rule for `Except` bind on an error value. -/
theorem except_bind_error {α β : Type} (e : CompileError)
    (f : α → Except CompileError β) :
    (Except.error e : Except CompileError α) >>= f = .error e := rfl

/-- An `Except` bind succeeds only through a success of its first step. -/
theorem except_bind_ok_inv {α β : Type} {m : Except CompileError α}
    {f : α → Except CompileError β} {b : β}
    (h : m >>= f = .ok b) : ∃ a, m = .ok a ∧ f a = .ok b := by
  cases m with
  | ok a => exact ⟨a, rfl, h⟩
  | error e => simp [except_bind_error] at h

/-- C1 (counterexample): with a type parameter `T` declared both on the
class and on the method, `_resolve_typename` resolves the bare name `T`
to the class-bound reference — not to the method-bound one the claim
states. -/
theorem C1_counterexample :
    _resolve_typename emptyDict [] [TyParam.invariant ("T")] [TyParam.invariant ("T")]
      (.mk [("T")] []) = .ok (ty.typaram_ref ("T") .Class 0) ∧
    (ty.typaram_ref ("T") .Class 0).typaram_kind ≠ some TyParamKind.Method :=
  ⟨rfl, by decide⟩

/-- C1 (amended): in `_resolve_typename`, a single-segment, argument-free
type name that matches a class type parameter resolves to the class-bound
`TyParamRef` with that parameter's index, regardless of the method type
parameters — class type parameters shadow method type parameters. -/
theorem C1_class_shadows_method :
    ∀ (dict : ClassDict) (ns : Namespace) (ctp mtp : List TyParam) (s : String)
      (idx : Nat),
      ctp.findIdx? (fun t => t.name == s) = some idx →
      _resolve_typename dict ns ctp mtp (.mk [s] []) =
        .ok (ty.typaram_ref s .Class idx) := by
  intro dict ns ctp mtp s idx h
  simp [_resolve_typename, h]

/-- C1 witness: the amended theorem applied at the concrete shadowing
input. -/
theorem C1_class_shadows_method_witness :
    _resolve_typename emptyDict [] [TyParam.invariant ("T")] [TyParam.invariant ("T")]
      (.mk [("T")] []) = .ok (ty.typaram_ref ("T") .Class 0) :=
  C1_class_shadows_method emptyDict [] _ _ ("T") 0 (by decide)

/-- The loop of `_resolve_simple_typename` tries the candidates for
`j = 0, 1, …` in order and returns the first one in the class index. -/
theorem resolve_simple_loop_spec (dict : ClassDict) (ns : Namespace)
    (names : List String) :
    ∀ (rem k : Nat),
      resolve_simple_loop dict ns names rem k =
        match ((List.range rem).map
            (fun j => ns.head (ns.size - (k + j)) ++ names)).findSome?
            (fun c => (dict.class_index.lookup (String.intercalate ("::") c)).map
              (fun tps => (c, tps))) with
        | some r => .ok r
        | none =>
          .error (error.name_error ("unknown type " ++ String.intercalate ("::") names)) := by
  intro rem
  induction rem with
  | zero => intro k; simp [resolve_simple_loop]
  | succ rem ih =>
    intro k
    rw [resolve_simple_loop]
    rw [List.range_succ_eq_map]
    simp only [List.map_cons, List.map_map, List.findSome?_cons]
    cases hl : dict.class_index.lookup
        (String.intercalate ("::") (ns.head (ns.size - (k + 0)) ++ names)) with
    | none =>
      simp only [hl, Option.map_none, Nat.add_zero] at *
      rw [ih (k + 1)]
      have harg :
          ((fun j => ns.head (ns.size - (k + j)) ++ names) ∘ Nat.succ) =
            (fun j => ns.head (ns.size - (k + 1 + j)) ++ names) := by
        funext j
        have h2 : k + Nat.succ j = k + 1 + j := by omega
        simp only [Function.comp_apply, h2]
      rw [harg]
      cases hl2 : dict.class_index.lookup
          (String.intercalate ("::") (ns.head (ns.size - k) ++ names)) with
      | none => rfl
      | some tps =>
        rw [hl2] at hl
        cases hl
    | some tps =>
      simp only [Nat.add_zero] at hl
      simp [hl]

/-- C8: `_resolve_simple_typename` tries, for `k = 0..n` in increasing
order, the candidate formed by the first `n − k` namespace segments
followed by the queried segments, returning the first candidate in the
class index, and fails with a name error when none is known. -/
theorem C8_resolution_order :
    ∀ (dict : ClassDict) (ns : Namespace) (names : List String),
      _resolve_simple_typename dict ns names =
        match ((List.range (ns.size + 1)).map
            (fun k => ns.head (ns.size - k) ++ names)).findSome?
            (fun c => (dict.class_index.lookup (String.intercalate ("::") c)).map
              (fun tps => (c, tps))) with
        | some r => .ok r
        | none =>
          .error (error.name_error ("unknown type " ++ String.intercalate ("::") names)) := by
  intro dict ns names
  rw [_resolve_simple_typename, resolve_simple_loop_spec]
  simp [Nat.zero_add]

/-- C6 (counterexample): for a `Void`-returning signature the check
accepts an `Int` body even though `Int` does not conform to `Void` (and
the return type is not a `TyParamRef`, so the claim's exception does not
apply) — refuting the claimed equivalence with conformance. -/
theorem C6_counterexample :
    check_return_value testDict voidSig (ty.raw ("Int")) = .ok () ∧
    ClassDict.conforms testDict (ty.raw ("Int")) voidSig.ret_ty = false ∧
    voidSig.ret_ty.typaram_lower_bound = none :=
  ⟨rfl, by decide, rfl⟩

/-- C6 (amended): the return-value check succeeds iff the declared return
type is `Void` (accepting everything), or it is a `TyParamRef` and the
body type is structurally equal to it or conforms to its lower bound, or
otherwise the body type conforms to the declared return type. -/
theorem C6_return_check :
    ∀ (dict : ClassDict) (sig : MethodSignature) (t : TermTy),
      (check_return_value dict sig t = .ok ()) ↔
        (sig.ret_ty.is_void_type = true ∨
         (∃ lb, sig.ret_ty.typaram_lower_bound = some lb ∧
            (t.equals_to sig.ret_ty = true ∨ dict.conforms t lb.to_term_ty = true)) ∨
         (sig.ret_ty.is_void_type = false ∧ sig.ret_ty.typaram_lower_bound = none ∧
          dict.conforms t sig.ret_ty = true)) := by
  intro dict sig t
  unfold check_return_value
  cases hr : sig.ret_ty with
  | TyRaw lit =>
    dsimp only
    by_cases hv : (TermTy.TyRaw lit).is_void_type = true
    · rw [if_pos hv]
      constructor
      · intro _; exact Or.inl hv
      · intro _; rfl
    · have hv2 : (TermTy.TyRaw lit).is_void_type = false := by
        cases h2 : (TermTy.TyRaw lit).is_void_type
        · rfl
        · exact absurd h2 hv
      rw [if_neg hv]
      by_cases hc : dict.conforms t (TermTy.TyRaw lit) = true
      · rw [if_pos hc]
        constructor
        · intro _; exact Or.inr (Or.inr ⟨hv2, rfl, hc⟩)
        · intro _; rfl
      · rw [if_neg hc]
        constructor
        · intro h; cases h
        · rintro (h | ⟨lb2, hlb2, _⟩ | ⟨_, _, hcc⟩)
          · exact absurd h hv
          · exact absurd hlb2 (by simp [TermTy.typaram_lower_bound])
          · exact absurd hcc hc
  | TyPara k n i ub lb ac =>
    have hv : (TermTy.TyPara k n i ub lb ac).is_void_type = false := rfl
    rw [hv]
    simp only [Bool.false_eq_true, if_false]
    dsimp only [TermTy.typaram_lower_bound]
    by_cases he : t.equals_to (TermTy.TyPara k n i ub lb ac) = true
    · rw [if_pos he]
      constructor
      · intro _; exact Or.inr (Or.inl ⟨lb, rfl, Or.inl he⟩)
      · intro _; rfl
    · rw [if_neg he]
      dsimp only
      by_cases hc : dict.conforms t lb.to_term_ty = true
      · rw [if_pos hc]
        constructor
        · intro _; exact Or.inr (Or.inl ⟨lb, rfl, Or.inr hc⟩)
        · intro _; rfl
      · rw [if_neg hc]
        constructor
        · intro h; cases h
        · rintro (h | ⟨lb2, hlb2, heq | hcc⟩ | ⟨_, hnone, _⟩)
          · exact absurd h (by simp)
          · cases hlb2
            exact absurd heq he
          · cases hlb2
            exact absurd hcc hc
          · exact absurd hnone (by simp)

/-- C10: a `Void` return type makes `check_return_value` accept every
body type, and `convert_method_def_` void-ifies the converted body before
the check and then succeeds (no return-type error is possible). -/
theorem C10_void_methods :
    (∀ (dict : ClassDict) (sig : MethodSignature) (t : TermTy),
       sig.ret_ty.is_void_type = true → check_return_value dict sig t = .ok ()) ∧
    (∀ (env : ConvertEnv) (mk : HirMaker) (cf nm : String)
       (body : List AstExpression) (si : Option (List (String × SkIVar)))
       (sig : MethodSignature) (ex : HirExpressions) (mk2 : HirMaker)
       (popped : MethodSignature × Option (List (String × SkIVar)) ×
         List (String × CtxLVar) × List (String × SkIVar)) (mk3 : HirMaker),
       mk.class_dict.find_method cf nm = some sig →
       sig.ret_ty.is_void_type = true →
       env.convertExprs (mk.push_ctx (.methodCtx sig si [] [])) body = .ok (ex, mk2) →
       mk2.pop_method_ctx = .ok (popped, mk3) →
       convert_method_def_ env mk cf nm body si =
         .ok ((⟨sig, .ShiikaMethodBody ex.voidify, extract_lvars popped.2.2.1⟩,
           popped.2.2.2), mk3)) := by
  have hA : ∀ (dict : ClassDict) (sig : MethodSignature) (t : TermTy),
      sig.ret_ty.is_void_type = true → check_return_value dict sig t = .ok () := by
    intro dict sig t hv
    unfold check_return_value
    rw [if_pos hv]
  refine ⟨hA, ?_⟩
  intro env mk cf nm body si sig ex mk2 popped mk3 hfind hv hconv hpop
  unfold convert_method_def_
  rw [hfind]
  dsimp only
  rw [hconv, except_bind_ok]
  dsimp only
  rw [if_pos hv]
  rw [hpop, except_bind_ok]
  dsimp only
  rw [hA mk3.class_dict sig ex.voidify.ty hv, except_bind_ok]

/-- The argument-check loop succeeds iff every remaining argument
conforms to its expected (inferred-or-declared) type. -/
theorem check_arg_types_loop_ok (dict : ClassDict) (sig : MethodSignature)
    (args : List HirExpression) (inf : Option MethodCallInf3)
    (hlen : args.length = sig.params.length)
    (hinf : ∀ x, inf = some x → x.solved_method_arg_tys.length = sig.params.length) :
    ∀ (rem i : Nat), i + rem = sig.params.length →
      (check_arg_types_loop dict sig args inf rem i = .ok () ↔
        ∀ j param arg, i ≤ j → sig.params.get? j = some param →
          args.get? j = some arg →
          dict.conforms arg.ty
            ((inf.bind (fun x => x.solved_method_arg_tys.get? j)).getD param.ty)
            = true) := by
  intro rem
  induction rem with
  | zero =>
    intro i hi
    simp only [check_arg_types_loop]
    constructor
    · intro _ j param arg hij hp ha
      exfalso
      have hj : j < sig.params.length := (List.get?_eq_some.mp hp).1
      omega
    · intro _; trivial
  | succ rem ih =>
    intro i hi
    have hilt : i < sig.params.length := by omega
    obtain ⟨param, hparam⟩ : ∃ p, sig.params.get? i = some p :=
      ⟨_, List.get?_eq_get hilt⟩
    obtain ⟨arg, harg⟩ : ∃ a, args.get? i = some a :=
      ⟨_, List.get?_eq_get (by omega : i < args.length)⟩
    rw [check_arg_types_loop, hparam, harg]
    dsimp only
    have hmain : ∀ (inferred : Option TermTy),
        (inf.bind (fun x => x.solved_method_arg_tys.get? i)) = inferred →
        ((do
            check_arg_type dict arg param inferred
            check_arg_types_loop dict sig args inf rem (i + 1)) = .ok () ↔
          ∀ j param2 arg2, i ≤ j → sig.params.get? j = some param2 →
            args.get? j = some arg2 →
            dict.conforms arg2.ty
              ((inf.bind (fun x => x.solved_method_arg_tys.get? j)).getD param2.ty)
              = true) := by
      intro inferred hinferred
      by_cases hc : dict.conforms arg.ty (inferred.getD param.ty) = true
      · have hok : check_arg_type dict arg param inferred = .ok () := by
          unfold check_arg_type
          rw [if_pos hc]
        rw [hok, except_bind_ok]
        rw [ih (i + 1) (by omega)]
        constructor
        · intro hrest j param2 arg2 hij hp2 ha2
          rcases Nat.eq_or_lt_of_le hij with hji | hji
          · subst hji
            rw [hparam] at hp2
            rw [harg] at ha2
            cases hp2
            cases ha2
            rw [hinferred]
            exact hc
          · exact hrest j param2 arg2 hji hp2 ha2
        · intro hall j param2 arg2 hij hp2 ha2
          exact hall j param2 arg2 (by omega) hp2 ha2
      · have herr : ∃ e, check_arg_type dict arg param inferred = .error e := by
          unfold check_arg_type
          rw [if_neg hc]
          cases inferred.isSome <;> simp
        obtain ⟨e, he⟩ := herr
        rw [he, except_bind_error]
        constructor
        · intro h; cases h
        · intro hall
          exfalso
          apply hc
          have := hall i param arg (Nat.le_refl i) hparam harg
          rw [hinferred] at this
          exact this
    cases hio : inf with
    | none =>
      subst hio
      dsimp only
      rw [except_bind_ok]
      exact hmain none rfl
    | some x =>
      subst hio
      have hx : x.solved_method_arg_tys.length = sig.params.length := hinf x rfl
      obtain ⟨t, ht⟩ : ∃ t, x.solved_method_arg_tys.get? i = some t :=
        ⟨_, List.get?_eq_get (by omega)⟩
      dsimp only
      rw [ht]
      dsimp only
      rw [except_bind_ok]
      exact hmain (some t) ht

/-- The argument-check loop fails only with a type error (given coherent
inference results). -/
theorem check_arg_types_loop_kind (dict : ClassDict) (sig : MethodSignature)
    (args : List HirExpression) (inf : Option MethodCallInf3)
    (hlen : args.length = sig.params.length)
    (hinf : ∀ x, inf = some x → x.solved_method_arg_tys.length = sig.params.length) :
    ∀ (rem i : Nat), i + rem = sig.params.length →
      check_arg_types_loop dict sig args inf rem i = .ok () ∨
      errKind (check_arg_types_loop dict sig args inf rem i) =
        some ErrorKind.TypeError := by
  intro rem
  induction rem with
  | zero =>
    intro i hi
    left
    simp [check_arg_types_loop]
  | succ rem ih =>
    intro i hi
    have hilt : i < sig.params.length := by omega
    obtain ⟨param, hparam⟩ : ∃ p, sig.params.get? i = some p :=
      ⟨_, List.get?_eq_get hilt⟩
    obtain ⟨arg, harg⟩ : ∃ a, args.get? i = some a :=
      ⟨_, List.get?_eq_get (by omega : i < args.length)⟩
    rw [check_arg_types_loop, hparam, harg]
    dsimp only
    have hmain : ∀ (inferred : Option TermTy),
        ((do
            check_arg_type dict arg param inferred
            check_arg_types_loop dict sig args inf rem (i + 1)) = .ok () ∨
          errKind (do
            check_arg_type dict arg param inferred
            check_arg_types_loop dict sig args inf rem (i + 1)) =
            some ErrorKind.TypeError) := by
      intro inferred
      by_cases hc : dict.conforms arg.ty (inferred.getD param.ty) = true
      · have hok : check_arg_type dict arg param inferred = .ok () := by
          unfold check_arg_type
          rw [if_pos hc]
        rw [hok, except_bind_ok]
        exact ih (i + 1) (by omega)
      · unfold check_arg_type
        rw [if_neg hc]
        cases inferred.isSome <;> simp [except_bind_error, errKind, error.type_error]
    cases hio : inf with
    | none =>
      subst hio
      dsimp only
      rw [except_bind_ok]
      exact hmain none
    | some x =>
      subst hio
      have hx : x.solved_method_arg_tys.length = sig.params.length := hinf x rfl
      obtain ⟨t, ht⟩ : ∃ t, x.solved_method_arg_tys.get? i = some t :=
        ⟨_, List.get?_eq_get (by omega)⟩
      dsimp only
      rw [ht]
      dsimp only
      rw [except_bind_ok]
      exact hmain (some t)

/-- C7: `check_method_args` accepts a call iff the argument count equals
the parameter count and every argument conforms to the inferred type when
present, otherwise to the declared parameter type; any violation is a
type error. -/
theorem C7_method_args_check :
    ∀ (dict : ClassDict) (sig : MethodSignature) (args : List HirExpression)
      (inf : Option MethodCallInf3),
      (∀ x, inf = some x → x.solved_method_arg_tys.length = sig.params.length) →
      ((check_method_args dict sig args inf = .ok ()) ↔
        (args.length = sig.params.length ∧
         ∀ j param arg, sig.params.get? j = some param → args.get? j = some arg →
           dict.conforms arg.ty
             ((inf.bind (fun x => x.solved_method_arg_tys.get? j)).getD param.ty)
             = true)) ∧
      (check_method_args dict sig args inf ≠ .ok () →
        errKind (check_method_args dict sig args inf) = some ErrorKind.TypeError) := by
  intro dict sig args inf hinf
  unfold check_method_args check_method_arity
  by_cases hl : sig.params.length = args.length
  · rw [if_neg (by omega)]
    rw [except_bind_ok]
    unfold check_arg_types
    have hiff := check_arg_types_loop_ok dict sig args inf hl.symm hinf
      sig.params.length 0 (by omega)
    have hkind := check_arg_types_loop_kind dict sig args inf hl.symm hinf
      sig.params.length 0 (by omega)
    constructor
    · rw [hiff]
      constructor
      · intro hall
        exact ⟨hl.symm, fun j param arg hp ha =>
          hall j param arg (Nat.zero_le j) hp ha⟩
      · intro hall j param arg _ hp ha
        exact hall.2 j param arg hp ha
    · intro hne
      rcases hkind with hok | hk
      · exact absurd hok hne
      · exact hk
  · rw [if_pos (by omega)]
    rw [except_bind_error]
    constructor
    · constructor
      · intro h; cases h
      · intro h
        exact absurd h.1.symm hl
    · intro _
      rfl

/-- C7 witness: the theorem applied to the fixture `Foo#baz` call with a
single conforming `Int` argument and no inference result. -/
theorem C7_method_args_check_witness :
    [dummyExpr].length = intSig.params.length ∧
    (∀ j param arg, intSig.params.get? j = some param →
      [dummyExpr].get? j = some arg →
      testDict.conforms arg.ty
        (((none : Option MethodCallInf3).bind
            (fun x => x.solved_method_arg_tys.get? j)).getD param.ty) = true) :=
  (C7_method_args_check testDict intSig [dummyExpr] none
    (fun x h => by cases h)).1.mp rfl

/-- A string never equals itself prefixed with the `Meta:` marker. -/
theorem beq_meta_self (s : String) : (s == "Meta:" ++ s) = false := by
  apply beq_eq_false_iff_ne.mpr
  intro h
  have hlen := congrArg String.length h
  rw [String.length_append] at hlen
  have h5 : ("Meta:" : String).length = 5 := rfl
  rw [h5] at hlen
  omega

/-- The `Meta:`-prefixed name never equals the plain name. -/
theorem meta_beq_self (s : String) : (("Meta:" ++ s : String) == s) = false := by
  apply beq_eq_false_iff_ne.mpr
  intro h
  have hlen := congrArg String.length h
  rw [String.length_append] at hlen
  have h5 : ("Meta:" : String).length = 5 := rfl
  rw [h5] at hlen
  omega

/-- The cons step of association-list lookup, in `ite` form. -/
theorem lookup_cons {β : Type} (key k : String) (v : β) (rest : List (String × β)) :
    List.lookup key ((k, v) :: rest) =
      if (key == k) = true then some v else List.lookup key rest := by
  cases h : (key == k) <;> simp [List.lookup, h]

/-- Looking up a key in an association list whose entries were updated at
one target key: the update is applied exactly when the key is the
target. -/
theorem lookup_map_if {β : Type} (key target : String) (f : β → β)
    (l : List (String × β)) :
    List.lookup key (l.map (fun p =>
      if (p.1 == target) = true then (p.1, f p.2) else p)) =
      (if (key == target) = true then (List.lookup key l).map f
       else List.lookup key l) := by
  induction l with
  | nil => cases hkt : (key == target) <;> simp [List.lookup, hkt]
  | cons p rest ih =>
    obtain ⟨k, v⟩ := p
    rw [List.map_cons]
    by_cases hk : (k == target) = true
    · rw [if_pos hk, lookup_cons, lookup_cons]
      have hk2 : k = target := eq_of_beq hk
      subst hk2
      by_cases hkey : (key == k) = true
      · simp [hkey]
      · have hkf : (key == k) = false := by
          cases h2 : (key == k)
          · rfl
          · exact absurd h2 hkey
        rw [if_neg hkey, ih]
        simp [hkf]
    · have hkf : (k == target) = false := by
        cases h2 : (k == target)
        · rfl
        · exact absurd h2 hk
      rw [if_neg hk, lookup_cons, lookup_cons]
      by_cases hkey : (key == k) = true
      · have hkey2 : key = k := eq_of_beq hkey
        subst hkey2
        simp [hkf]
      · have hkeyf : (key == k) = false := by
          cases h2 : (key == k)
          · rfl
          · exact absurd h2 hkey
        rw [if_neg hkey, ih]
        simp [hkeyf]

/-- C9: a successfully indexed enum case is registered as a class whose
superclass is the enum applied to `Never` for every enum type parameter
when the case has no parameters and to references to the enum's own type
parameters otherwise; a parameterless case has `const_is_obj = true` and
no type parameters of its own, while a parameterized case inherits the
enum's type-parameter list. -/
theorem C9_enum_case_registration :
    ∀ (dict : ClassDict) (ns : Namespace) (enum_fullname : String)
      (typarams : List TyParam) (case : EnumCase) (dict2 : ClassDict),
      index_enum_case dict ns enum_fullname typarams case = .ok dict2 →
      ∃ c, dict2.lookup_class (add_namespace case.name enum_fullname) = some c ∧
        c.superclass = some (Superclass.make enum_fullname
          (if case.params.isEmpty then typarams.map (fun _ => ty.raw ("Never"))
           else typarams.enum.map (fun p => ty.typaram_ref p.2.name .Class p.1))) ∧
        c.const_is_obj = case.params.isEmpty ∧
        c.base.typarams = (if case.params.isEmpty then [] else typarams) := by
  intro dict ns enum_fullname typarams case dict2 h
  unfold index_enum_case at h
  obtain ⟨ivar_list, hiv, h2⟩ := except_bind_ok_inv h
  dsimp only at h2
  obtain ⟨dict1, hadd, h3⟩ := except_bind_ok_inv h2
  unfold ClassDict.add_new_class at hadd
  dsimp only at hadd
  cases hcl : (ClassDict.add_type dict (.Class
      ⟨⟨Erasure.nonmeta (add_namespace case.name enum_fullname),
        (if case.params.isEmpty then [] else typarams),
        ("initialize", (enum_case_new_sig ivar_list typarams
          (add_namespace case.name enum_fullname)).2) ::
          enum_case_getters (add_namespace case.name enum_fullname) ivar_list,
        false⟩,
       some (enum_case_superclass enum_fullname typarams case), [], some true,
       case.params.isEmpty⟩)).lookup_class ("Class") with
  | none =>
    rw [hcl] at hadd
    cases hadd
  | some the_class =>
    rw [hcl] at hadd
    cases hadd
    have hk1 : (Erasure.meta (add_namespace case.name enum_fullname)).to_type_fullname =
        "Meta:" ++ add_namespace case.name enum_fullname := rfl
    have hk2 : (Erasure.nonmeta (add_namespace case.name enum_fullname)).to_type_fullname =
        add_namespace case.name enum_fullname := rfl
    unfold ClassDict.define_ivars at h3
    simp only [ClassDict.add_type, SkType.base, SkTypeBase.fullname_, hk1, hk2,
      List.lookup, beq_meta_self, beq_self_eq_true] at h3
    cases h3
    unfold ClassDict.lookup_class
    rw [lookup_map_if]
    simp only [List.lookup, beq_meta_self, beq_self_eq_true, if_true,
      Option.map_some]
    refine ⟨_, rfl, ?_, rfl, rfl⟩
    unfold enum_case_superclass
    cases hp : case.params.isEmpty <;> simp [hp]

/-- The nearest-common-ancestor loop of `calc_result_ty` is the monadic
fold of the binary nearest-common-ancestor, failing with a type error
exactly when the fold is undefined. -/
theorem calc_nca_loop_spec (nca : TermTy → TermTy → Option TermTy) :
    ∀ (cs : List MatchClause) (t : TermTy),
      calc_nca_loop nca cs t =
        match cs.foldlM (fun acc c => nca acc c.body_hir.ty) t with
        | some t2 => .ok t2
        | none => .error (error.type_error ("match clause type mismatch")) := by
  intro cs
  induction cs with
  | nil => intro t; rfl
  | cons c cs ih =>
    intro t
    rw [calc_nca_loop]
    rw [List.foldlM_cons]
    cases hn : nca t c.body_hir.ty with
    | some t2 =>
      simp only [Option.some_bind]
      exact ih t2
    | none => rfl

/-- C2: for a nonempty clause list, `calc_result_ty` yields `Never` when
every clause body is `Never`; `Void` (voidifying the other non-`Never`
bodies) when some non-`Never` body is `Void`; otherwise the folded
nearest common ancestor of the non-`Never` body types, bitcasting every
non-`Never` clause whose body type differs, and a type error when the
fold is undefined. -/
theorem C2_match_result_ty :
    ∀ (nca : TermTy → TermTy → Option TermTy) (clauses : List MatchClause),
      clauses ≠ [] →
      ((clauses.filter (fun c => !c.body_hir.ty.is_never_type) = [] →
          calc_result_ty nca clauses = .ok (ty.raw ("Never"), clauses)) ∧
       (∀ c0 nrest,
          clauses.filter (fun c => !c.body_hir.ty.is_never_type) = c0 :: nrest →
          (((c0 :: nrest).any (fun c => c.body_hir.ty.is_void_type) = true →
            calc_result_ty nca clauses = .ok (ty.raw ("Void"),
              clauses.map (fun c =>
                if !c.body_hir.ty.is_never_type && !c.body_hir.ty.is_void_type then
                  c.voidify else c))) ∧
           ((c0 :: nrest).any (fun c => c.body_hir.ty.is_void_type) = false →
            (∀ t, (c0 :: nrest).foldlM (fun acc c => nca acc c.body_hir.ty)
                c0.body_hir.ty = some t →
              calc_result_ty nca clauses = .ok (t,
                clauses.map (fun c =>
                  if !c.body_hir.ty.is_never_type && !c.body_hir.ty.equals_to t then
                    bitcast_match_clause_body c t else c))) ∧
            ((c0 :: nrest).foldlM (fun acc c => nca acc c.body_hir.ty)
                c0.body_hir.ty = none →
              errKind (calc_result_ty nca clauses) = some ErrorKind.TypeError))))) := by
  intro nca clauses hne
  constructor
  · intro hfe
    unfold calc_result_ty
    rw [hfe]
    rfl
  · intro c0 nrest hfil
    unfold calc_result_ty
    rw [hfil]
    constructor
    · intro hany
      simp only [List.isEmpty_cons, hany, if_true, Bool.false_eq_true, if_false]
    · intro hnoany
      simp only [List.isEmpty_cons, hnoany, Bool.false_eq_true, if_false]
      constructor
      · intro t hfold
        rw [calc_nca_loop_spec, hfold]
        rfl
      · intro hfold
        rw [calc_nca_loop_spec, hfold]
        rfl

/-- C2 witness: the theorem applied to two `Int`-bodied clauses with the
equality-based ancestor function. -/
theorem C2_match_result_ty_witness :
    calc_result_ty nca2 [mc2, mc2] = .ok (ty.raw ("Int"),
      ([mc2, mc2]).map (fun c =>
        if !c.body_hir.ty.is_never_type && !c.body_hir.ty.equals_to (ty.raw ("Int")) then
          bitcast_match_clause_body c (ty.raw ("Int")) else c)) :=
  ((((C2_match_result_ty nca2 [mc2, mc2] (by simp)).2 mc2 [mc2] rfl).2) rfl).1
    (ty.raw ("Int")) rfl

/-- C3: every successfully converted match expression carries a clause
list ending in the synthetic panic clause — empty components and a body
calling `Object#panic` on the interned message `"no matching clause
found"` — and a match with zero source clauses still converts (the result
type is `Never` and the panic clause is the only clause). -/
theorem C3_panic_clause :
    (∀ (env : ConvertEnv) (mk : HirMaker) (cond : AstExpression)
       (ast_clauses : List (AstPattern × List AstExpression))
       (res : (HirExpression × List (String × TermTy)) × HirMaker),
       convert_match_expr env mk cond ast_clauses = .ok res →
       ∃ result_ty cond_assign clauses idx,
         res.1.1 = Hir.match_expression result_ty cond_assign
           (clauses ++ [panic_clause idx]) .todo ∧
         res.2.str_literals.get? idx = some ("no matching clause found")) ∧
    (∀ (env : ConvertEnv) (mk : HirMaker) (cond : AstExpression)
       (e : HirExpression) (mk1 : HirMaker),
       env.convertExpr mk cond = .ok (e, mk1) →
       ∃ tmp idx mk4,
         convert_match_expr env mk cond [] =
           .ok ((Hir.match_expression (ty.raw ("Never"))
             (Hir.lvar_assign tmp e .todo) ([] ++ [panic_clause idx]) .todo,
             [(tmp, e.ty)]), mk4) ∧
         mk4.str_literals.get? idx = some ("no matching clause found")) := by
  constructor
  · intro env mk cond ast_clauses res h
    unfold convert_match_expr at h
    obtain ⟨p1, hce, h⟩ := except_bind_ok_inv h
    obtain ⟨cond_expr, mk1⟩ := p1
    dsimp only [HirMaker.generate_lvar_name] at h
    obtain ⟨p2, hcl, h⟩ := except_bind_ok_inv h
    obtain ⟨clauses0, mk3⟩ := p2
    dsimp only at h
    obtain ⟨p3, hcrt, h⟩ := except_bind_ok_inv h
    obtain ⟨result_ty, clauses1⟩ := p3
    dsimp only [HirMaker.register_string_literal] at h
    cases h
    refine ⟨result_ty, _, clauses1, mk3.str_literals.length, rfl, ?_⟩
    exact List.get?_concat_length _ _
  · intro env mk cond e mk1 hce
    refine ⟨"expr" ++ "@" ++ toString mk1.gensym_ct ++ "_", mk1.str_literals.length,
      ⟨mk1.class_dict, mk1.str_literals ++ [("no matching clause found")],
        mk1.ctx_stack, mk1.gensym_ct + 1⟩, ?_, ?_⟩
    · unfold convert_match_expr
      rw [hce, except_bind_ok]
      rfl
    · exact List.get?_concat_length _ _

/-- C3 witness: the theorem applied to a zero-clause match over the
fixture environment. -/
theorem C3_panic_clause_witness :
    ∃ tmp idx mk4,
      convert_match_expr testEnv testMk ⟨0⟩ [] =
        .ok ((Hir.match_expression (ty.raw ("Never"))
          (Hir.lvar_assign tmp dummyExpr .todo) ([] ++ [panic_clause idx]) .todo,
          [(tmp, dummyExpr.ty)]), mk4) ∧
      mk4.str_literals.get? idx = some ("no matching clause found") :=
  C3_panic_clause.2 testEnv testMk ⟨0⟩ dummyExpr testMk rfl

/-- C5: compiling an extractor pattern raises a type error when the
inferred pattern type does not conform to the scrutinee's type, raises a
program error when the sub-pattern count differs from the arity of the
class's `#initialize`, and on success emits the class-identity test first
followed by the sub-pattern components. -/
theorem C5_extractor_checks :
    ∀ (env : ConvertEnv) (mk : HirMaker) (value : HirExpression)
      (names : List String) (pats : List AstPattern)
      (pat_base : Erasure) (mk1 : HirMaker) (pat_ty : TermTy),
      get_base_ty env mk names = .ok (pat_base, mk1) →
      infer_pat_ty mk1 pat_base value.ty = .ok pat_ty →
      ((mk1.class_dict.conforms pat_ty value.ty = false →
          errKind (convert_extractor env mk value names pats) =
            some ErrorKind.TypeError) ∧
       (mk1.class_dict.conforms pat_ty value.ty = true →
         (∀ props, class_props mk1 pat_ty = .ok props →
            props.length ≠ pats.length →
            errKind (convert_extractor env mk value names pats) =
              some ErrorKind.ProgramError) ∧
         (∀ comps mk2 test mk3,
            extract_props env mk1 (Hir.bit_cast pat_ty value) pat_ty pats =
              .ok (comps, mk2) →
            test_class env mk2 value pat_ty = .ok (test, mk3) →
            convert_extractor env mk value names pats =
              .ok (Component.Test test :: comps, mk3)))) := by
  intro env mk value names pats pat_base mk1 pat_ty hbase hinfer
  have hunf : ∀ (r : Except CompileError (List Component × HirMaker)),
      (convert_extractor env mk value names pats = r) ↔
      ((do
        let pb ← get_base_ty env mk names
        let pt ← infer_pat_ty pb.2 pb.1 value.ty
        if !pb.2.class_dict.conforms pt value.ty then
          Except.error (error.type_error ("expr never matches the pattern type"))
        else do
          let cv ← extract_props env pb.2 (Hir.bit_cast pt value) pt pats
          let tc ← test_class env cv.2 value pt
          Except.ok (Component.Test tc.1 :: cv.1, tc.2)) = r) := by
    intro r
    rw [convert_extractor]
  constructor
  · intro hconf
    have hres : convert_extractor env mk value names pats =
        .error (error.type_error ("expr never matches the pattern type")) := by
      rw [hunf]
      simp only [hbase, except_bind_ok, hinfer]
      rw [if_pos (by rw [hconf]; rfl)]
    rw [hres]
    rfl
  · intro hconf
    constructor
    · intro props hprops hlen
      have hext : extract_props env mk1 (Hir.bit_cast pat_ty value) pat_ty pats =
          .error (error.program_error ("pattern count mismatch")) := by
        rw [extract_props]
        simp only [hprops, except_bind_ok]
        rw [if_pos hlen]
      have hres : convert_extractor env mk value names pats =
          .error (error.program_error ("pattern count mismatch")) := by
        rw [hunf]
        simp only [hbase, except_bind_ok, hinfer]
        rw [if_neg (by rw [hconf]; exact (by simp))]
        simp only [hext, except_bind_error]
      rw [hres]
      rfl
    · intro comps mk2 test mk3 hext htc
      rw [hunf]
      simp only [hbase, except_bind_ok, hinfer]
      rw [if_neg (by rw [hconf]; exact (by simp))]
      simp only [hext, except_bind_ok, htc]

/-- C5 witness: the theorem applied to the pattern `Some(x)` against a
`Maybe` scrutinee over the fixture dictionary. -/
theorem C5_extractor_checks_witness :
    convert_extractor testEnv testMk valMaybe [("Some")]
      [AstPattern.VariablePattern ("x")] =
      .ok (Component.Test (Hir.method_call (ty.raw ("Bool"))
          (Hir.method_call (ty.raw ("Class"))
            (Hir.method_call (ty.raw ("Class")) valMaybe
              (method_fullname_raw ("Object") ("class")) [])
            (method_fullname_raw ("Class") ("erasure_class")) [])
          (method_fullname_raw ("Class") ("==")) [dummyExpr]) ::
        [Component.Bind ("x") (Hir.method_call (ty.raw ("Int"))
          (Hir.bit_cast (ty.raw ("Maybe::Some")) valMaybe)
          (method_fullname ("Maybe::Some") ("v")) [])], testMk) :=
  ((C5_extractor_checks testEnv testMk valMaybe [("Some")]
      [AstPattern.VariablePattern ("x")] (Erasure.nonmeta ("Maybe::Some")) testMk
      (ty.raw ("Maybe::Some")) rfl rfl).2 (by decide)).2 _ testMk _ testMk
    (by
      have h1 : class_props testMk (ty.raw ("Maybe::Some")) =
          .ok ([(("v"), ty.raw ("Int"))]) := rfl
      rw [extract_props]
      rw [h1]
      simp only [except_bind_ok, List.length_cons, List.length_nil, ne_eq]
      simp only [extract_props_loop, convert_match]
      rfl)
    rfl

/-- Inversion of a successful supers-entry classification. -/
theorem super_resolution_some {dict : ClassDict} {ns : Namespace}
    {ctp : List TyParam} {name : UnresolvedTypeName} {t : TermTy} {st : SkType}
    (h : super_resolution dict ns ctp name = some (t, st)) :
    _resolve_typename dict ns ctp [] name = .ok t ∧
    dict.find_type t.erasure.to_type_fullname = some st := by
  unfold super_resolution at h
  cases h1 : _resolve_typename dict ns ctp [] name with
  | error e =>
    rw [h1] at h
    dsimp only at h
    cases h
  | ok t2 =>
    rw [h1] at h
    dsimp only at h
    cases h2 : dict.find_type t2.erasure.to_type_fullname with
    | none =>
      rw [h2] at h
      dsimp only at h
      cases h
    | some st2 =>
      rw [h2] at h
      dsimp only at h
      cases h
      exact ⟨rfl, h2⟩

/-- Inversion of a failed supers-entry classification. -/
theorem super_resolution_none {dict : ClassDict} {ns : Namespace}
    {ctp : List TyParam} {name : UnresolvedTypeName}
    (h : super_resolution dict ns ctp name = none) :
    (∃ e, _resolve_typename dict ns ctp [] name = .error e) ∨
    (∃ t, _resolve_typename dict ns ctp [] name = .ok t ∧
      dict.find_type t.erasure.to_type_fullname = none) := by
  unfold super_resolution at h
  cases h1 : _resolve_typename dict ns ctp [] name with
  | error e => exact Or.inl ⟨e, rfl⟩
  | ok t =>
    rw [h1] at h
    dsimp only at h
    cases h2 : dict.find_type t.erasure.to_type_fullname with
    | none => exact Or.inr ⟨t, rfl, h2⟩
    | some st =>
      rw [h2] at h
      dsimp only at h
      cases h

/-- A defined `is_final` flag, extracted from the Boolean premise. -/
theorem final_defined_of {dict : ClassDict} {ns : Namespace} {ctp : List TyParam}
    {name : UnresolvedTypeName} {t : TermTy} {c : SkClass}
    (hd : super_final_defined dict ns ctp name = true)
    (hsr : super_resolution dict ns ctp name = some (t, .Class c)) :
    c.is_final ≠ none := by
  unfold super_final_defined at hd
  rw [hsr] at hd
  dsimp only at hd
  intro hnone
  rw [hnone] at hd
  simp at hd

/-- The step of the supers loop on an entry classified as a class. -/
theorem resolve_supers_loop_cons_class {dict : ClassDict} {ns : Namespace}
    {ctp : List TyParam} {name : UnresolvedTypeName}
    {rest : List UnresolvedTypeName} {mods : List Superclass}
    {sc : Option Superclass} {t : TermTy} {c : SkClass}
    (h : super_resolution dict ns ctp name = some (t, .Class c)) :
    resolve_supers_loop dict ns ctp (name :: rest) mods sc =
      (if !mods.isEmpty then
        .error (error.program_error ("superclass must be the first"))
       else if sc.isSome then
        .error (error.program_error ("only one superclass is allowed"))
       else
        match c.is_final with
        | none => .error (error.internal_bug ("is_final not set"))
        | some final =>
          if final then
            .error (error.program_error ("inheriting this class is not allowed"))
          else
            resolve_supers_loop dict ns ctp rest mods
              (some (Superclass.from_ty t))) := by
  obtain ⟨h1, h2⟩ := super_resolution_some h
  rw [resolve_supers_loop]
  simp only [h1, except_bind_ok, h2]

/-- The step of the supers loop on an entry classified as a module. -/
theorem resolve_supers_loop_cons_module {dict : ClassDict} {ns : Namespace}
    {ctp : List TyParam} {name : UnresolvedTypeName}
    {rest : List UnresolvedTypeName} {mods : List Superclass}
    {sc : Option Superclass} {t : TermTy} {m : SkModule}
    (h : super_resolution dict ns ctp name = some (t, .Module m)) :
    resolve_supers_loop dict ns ctp (name :: rest) mods sc =
      resolve_supers_loop dict ns ctp rest (mods ++ [Superclass.from_ty t]) sc := by
  obtain ⟨h1, h2⟩ := super_resolution_some h
  rw [resolve_supers_loop]
  simp only [h1, except_bind_ok, h2]

/-- The step of the supers loop on an entry that fails to classify. -/
theorem resolve_supers_loop_cons_none {dict : ClassDict} {ns : Namespace}
    {ctp : List TyParam} {name : UnresolvedTypeName}
    {rest : List UnresolvedTypeName} {mods : List Superclass}
    {sc : Option Superclass}
    (h : super_resolution dict ns ctp name = none) :
    ∃ e, resolve_supers_loop dict ns ctp (name :: rest) mods sc = .error e := by
  rcases super_resolution_none h with ⟨e, he⟩ | ⟨t, ht, hf⟩
  · refine ⟨e, ?_⟩
    rw [resolve_supers_loop]
    simp only [he, except_bind_error]
  · refine ⟨error.program_error ("unknown class or module"), ?_⟩
    rw [resolve_supers_loop]
    simp only [ht, except_bind_ok, hf]

/-- Full case analysis of the supers-loop step on a class entry: a
program error, an internal bug on an unset final flag, or continuation
with the class installed as the superclass. -/
theorem loop_class_step {dict : ClassDict} {ns : Namespace} {ctp : List TyParam}
    {name : UnresolvedTypeName} {rest : List UnresolvedTypeName}
    {mods : List Superclass} {sc : Option Superclass} {t : TermTy} {c : SkClass}
    (hsr : super_resolution dict ns ctp name = some (t, .Class c)) :
    (∃ e, resolve_supers_loop dict ns ctp (name :: rest) mods sc = .error e ∧
       e.kind = ErrorKind.ProgramError) ∨
    (c.is_final = none ∧
      ∃ e, resolve_supers_loop dict ns ctp (name :: rest) mods sc = .error e) ∨
    (mods.isEmpty = true ∧ sc = none ∧ c.is_final = some false ∧
      resolve_supers_loop dict ns ctp (name :: rest) mods sc =
        resolve_supers_loop dict ns ctp rest mods (some (Superclass.from_ty t))) := by
  rw [resolve_supers_loop_cons_class hsr]
  by_cases hm : mods.isEmpty = true
  · rw [if_neg (by rw [hm]; simp)]
    cases hsc : sc with
    | some s =>
      rw [if_pos (by rfl)]
      exact Or.inl ⟨_, rfl, rfl⟩
    | none =>
      rw [if_neg (by simp)]
      cases hf : c.is_final with
      | none =>
        dsimp only
        exact Or.inr (Or.inl ⟨rfl, _, rfl⟩)
      | some final =>
        cases final with
        | true =>
          dsimp only
          rw [if_pos rfl]
          exact Or.inl ⟨_, rfl, rfl⟩
        | false =>
          dsimp only
          rw [if_neg (by simp)]
          exact Or.inr (Or.inr ⟨hm, rfl, rfl, rfl⟩)
  · rw [if_pos (by simp [List.isEmpty_eq_true] at hm ⊢; exact hm)]
    exact Or.inl ⟨_, rfl, rfl⟩

/-- The supers loop rejects a second class with a program error. -/
theorem loop_two_classes {dict : ClassDict} {ns : Namespace} {ctp : List TyParam} :
    ∀ (supers : List UnresolvedTypeName) (mods : List Superclass)
      (sc : Option Superclass),
      (∀ name ∈ supers, (super_resolution dict ns ctp name).isSome = true) →
      (∀ name ∈ supers, super_final_defined dict ns ctp name = true) →
      2 ≤ supers.countP (fun n => super_is_class dict ns ctp n) +
        (if sc.isSome then 1 else 0) →
      errKind (resolve_supers_loop dict ns ctp supers mods sc) =
        some ErrorKind.ProgramError := by
  intro supers
  induction supers with
  | nil =>
    intro mods sc hall hdef hcount
    exfalso
    cases sc <;> simp [List.countP_nil] at hcount
  | cons name rest ih =>
    intro mods sc hall hdef hcount
    have hs := hall name (List.mem_cons_self name rest)
    cases hsr : super_resolution dict ns ctp name with
    | none => rw [hsr] at hs; simp at hs
    | some p =>
      obtain ⟨t, st⟩ := p
      cases st with
      | Module m =>
        rw [resolve_supers_loop_cons_module hsr]
        apply ih (mods ++ [Superclass.from_ty t]) sc
          (fun n hn => hall n (List.mem_cons_of_mem _ hn))
          (fun n hn => hdef n (List.mem_cons_of_mem _ hn))
        have hic : super_is_class dict ns ctp name = false := by
          unfold super_is_class
          rw [hsr]
        rw [List.countP_cons] at hcount
        simp only [hic, Bool.false_eq_true, if_false, Nat.add_zero] at hcount
        exact hcount
      | Class c =>
        rcases @loop_class_step dict ns ctp name rest mods sc t c hsr with
          ⟨e, he, hk⟩ | ⟨hfn, e2, he2⟩ | ⟨hme, hsc, hff, heq⟩
        · rw [he]
          simp [errKind, hk]
        · exact absurd hfn
            (final_defined_of (hdef name (List.mem_cons_self name rest)) hsr)
        · rw [heq]
          apply ih mods (some (Superclass.from_ty t))
            (fun n hn => hall n (List.mem_cons_of_mem _ hn))
            (fun n hn => hdef n (List.mem_cons_of_mem _ hn))
          have hic : super_is_class dict ns ctp name = true := by
            unfold super_is_class
            rw [hsr]
          rw [List.countP_cons] at hcount
          subst hsc
          simp only [hic, if_true, Option.isSome_none, Bool.false_eq_true,
            if_false, Nat.add_zero, Option.isSome_some] at hcount ⊢
          omega

/-- The supers loop rejects a final superclass with a program error. -/
theorem loop_final {dict : ClassDict} {ns : Namespace} {ctp : List TyParam} :
    ∀ (supers : List UnresolvedTypeName) (mods : List Superclass)
      (sc : Option Superclass),
      (∀ name ∈ supers, (super_resolution dict ns ctp name).isSome = true) →
      (∀ name ∈ supers, super_final_defined dict ns ctp name = true) →
      (∃ name ∈ supers, super_is_final dict ns ctp name = true) →
      errKind (resolve_supers_loop dict ns ctp supers mods sc) =
        some ErrorKind.ProgramError := by
  intro supers
  induction supers with
  | nil =>
    intro mods sc hall hdef hex
    obtain ⟨nm, hin, _⟩ := hex
    simp at hin
  | cons name rest ih =>
    intro mods sc hall hdef hex
    have hs := hall name (List.mem_cons_self name rest)
    cases hsr : super_resolution dict ns ctp name with
    | none => rw [hsr] at hs; simp at hs
    | some p =>
      obtain ⟨t, st⟩ := p
      cases st with
      | Module m =>
        obtain ⟨nm, hin, hfin⟩ := hex
        rcases List.mem_cons.mp hin with rfl | hin2
        · unfold super_is_final at hfin
          rw [hsr] at hfin
          simp at hfin
        · rw [resolve_supers_loop_cons_module hsr]
          exact ih _ _ (fun n hn => hall n (List.mem_cons_of_mem _ hn))
            (fun n hn => hdef n (List.mem_cons_of_mem _ hn)) ⟨nm, hin2, hfin⟩
      | Class c =>
        rcases @loop_class_step dict ns ctp name rest mods sc t c hsr with
          ⟨e, he, hk⟩ | ⟨hfn, e2, he2⟩ | ⟨hme, hsc, hff, heq⟩
        · rw [he]
          simp [errKind, hk]
        · exact absurd hfn
            (final_defined_of (hdef name (List.mem_cons_self name rest)) hsr)
        · obtain ⟨nm, hin, hfin⟩ := hex
          rcases List.mem_cons.mp hin with rfl | hin2
          · unfold super_is_final at hfin
            rw [hsr] at hfin
            dsimp only at hfin
            rw [hff] at hfin
            simp at hfin
          · rw [heq]
            exact ih _ _ (fun n hn => hall n (List.mem_cons_of_mem _ hn))
              (fun n hn => hdef n (List.mem_cons_of_mem _ hn)) ⟨nm, hin2, hfin⟩

/-- The supers loop fails whenever some entry does not classify. -/
theorem loop_unknown {dict : ClassDict} {ns : Namespace} {ctp : List TyParam} :
    ∀ (supers : List UnresolvedTypeName) (mods : List Superclass)
      (sc : Option Superclass),
      (∃ name ∈ supers, super_resolution dict ns ctp name = none) →
      ∃ e, resolve_supers_loop dict ns ctp supers mods sc = .error e := by
  intro supers
  induction supers with
  | nil =>
    intro mods sc hex
    obtain ⟨nm, hin, _⟩ := hex
    simp at hin
  | cons name rest ih =>
    intro mods sc hex
    obtain ⟨nm, hin, hnone⟩ := hex
    rcases List.mem_cons.mp hin with rfl | hin2
    · exact resolve_supers_loop_cons_none hnone
    · cases hsr : super_resolution dict ns ctp name with
      | none => exact resolve_supers_loop_cons_none hsr
      | some p =>
        obtain ⟨t, st⟩ := p
        cases st with
        | Module m =>
          rw [resolve_supers_loop_cons_module hsr]
          exact ih _ _ ⟨nm, hin2, hnone⟩
        | Class c =>
          rcases @loop_class_step dict ns ctp name rest mods sc t c hsr with
            ⟨e, he, _⟩ | ⟨_, e, he⟩ | ⟨_, _, _, heq⟩
          · exact ⟨e, he⟩
          · exact ⟨e, he⟩
          · rw [heq]
            exact ih _ _ ⟨nm, hin2, hnone⟩

/-- When no entry classifies as a class, a successful supers loop keeps
the carried superclass (defaulting to `Object`). -/
theorem loop_no_class {dict : ClassDict} {ns : Namespace} {ctp : List TyParam} :
    ∀ (supers : List UnresolvedTypeName) (mods : List Superclass)
      (sc : Option Superclass) (sc2 : Superclass) (mods2 : List Superclass),
      supers.countP (fun n => super_is_class dict ns ctp n) = 0 →
      resolve_supers_loop dict ns ctp supers mods sc = .ok (sc2, mods2) →
      sc2 = sc.getD Superclass.dflt := by
  intro supers
  induction supers with
  | nil =>
    intro mods sc sc2 mods2 hcount hok
    rw [resolve_supers_loop] at hok
    cases hok
    rfl
  | cons name rest ih =>
    intro mods sc sc2 mods2 hcount hok
    cases hsr : super_resolution dict ns ctp name with
    | none =>
      obtain ⟨e, he⟩ := @resolve_supers_loop_cons_none dict ns ctp name rest mods sc hsr
      rw [he] at hok
      cases hok
    | some p =>
      obtain ⟨t, st⟩ := p
      cases st with
      | Class c =>
        exfalso
        have hic : super_is_class dict ns ctp name = true := by
          unfold super_is_class
          rw [hsr]
        rw [List.countP_cons] at hcount
        simp [hic] at hcount
      | Module m =>
        rw [resolve_supers_loop_cons_module hsr] at hok
        have hic : super_is_class dict ns ctp name = false := by
          unfold super_is_class
          rw [hsr]
        rw [List.countP_cons] at hcount
        simp only [hic, Bool.false_eq_true, if_false, Nat.add_zero] at hcount
        exact ih _ _ _ _ hcount hok

/-- A successful supers loop collects exactly the module-classified
entries, in order, after the carried modules. -/
theorem loop_modules {dict : ClassDict} {ns : Namespace} {ctp : List TyParam} :
    ∀ (supers : List UnresolvedTypeName) (mods : List Superclass)
      (sc : Option Superclass) (sc2 : Superclass) (mods2 : List Superclass),
      resolve_supers_loop dict ns ctp supers mods sc = .ok (sc2, mods2) →
      mods2 = mods ++ supers.filterMap (fun n =>
        (super_module_ty dict ns ctp n).map Superclass.from_ty) := by
  intro supers
  induction supers with
  | nil =>
    intro mods sc sc2 mods2 hok
    rw [resolve_supers_loop] at hok
    cases hok
    simp
  | cons name rest ih =>
    intro mods sc sc2 mods2 hok
    cases hsr : super_resolution dict ns ctp name with
    | none =>
      obtain ⟨e, he⟩ := @resolve_supers_loop_cons_none dict ns ctp name rest mods sc hsr
      rw [he] at hok
      cases hok
    | some p =>
      obtain ⟨t, st⟩ := p
      cases st with
      | Module m =>
        rw [resolve_supers_loop_cons_module hsr] at hok
        have hmt : super_module_ty dict ns ctp name = some t := by
          unfold super_module_ty
          rw [hsr]
        rw [ih _ _ _ _ hok]
        simp [List.filterMap_cons, hmt]
      | Class c =>
        rcases @loop_class_step dict ns ctp name rest mods sc t c hsr with
          ⟨e, he, _⟩ | ⟨_, e, he⟩ | ⟨_, _, _, heq⟩
        · rw [he] at hok; cases hok
        · rw [he] at hok; cases hok
        · rw [heq] at hok
          have hmt : super_module_ty dict ns ctp name = none := by
            unfold super_module_ty
            rw [hsr]
          rw [ih _ _ _ _ hok]
          simp [List.filterMap_cons, hmt]

/-- C4 (amended): resolving a supers list fails with a `ProgramError`
when more than one entry names a class or some entry names a final class
(given every entry classifies and the final flags are set); it fails (a
`NameError` for a name missing from the class index, a `ProgramError` for
an erasure with no registered type) when an entry does not classify; and
on success the superclass defaults to `Object` when no entry names a
class, while the module-classified entries are collected, in order, as
inclusions. -/
theorem C4_resolve_supers :
    ∀ (dict : ClassDict) (ns : Namespace) (ctp : List TyParam)
      (supers : List UnresolvedTypeName),
      ((∀ name ∈ supers, (super_resolution dict ns ctp name).isSome = true) →
       (∀ name ∈ supers, super_final_defined dict ns ctp name = true) →
       ((2 ≤ supers.countP (fun n => super_is_class dict ns ctp n) →
           errKind (_resolve_supers dict ns ctp supers) =
             some ErrorKind.ProgramError) ∧
        ((∃ name ∈ supers, super_is_final dict ns ctp name = true) →
           errKind (_resolve_supers dict ns ctp supers) =
             some ErrorKind.ProgramError))) ∧
      ((∃ name ∈ supers, super_resolution dict ns ctp name = none) →
        ∃ e, _resolve_supers dict ns ctp supers = .error e) ∧
      (∀ sc mods, _resolve_supers dict ns ctp supers = .ok (sc, mods) →
        (supers.countP (fun n => super_is_class dict ns ctp n) = 0 →
          sc = Superclass.dflt) ∧
        mods = supers.filterMap (fun n =>
          (super_module_ty dict ns ctp n).map Superclass.from_ty)) := by
  intro dict ns ctp supers
  refine ⟨fun hall hdef => ⟨fun hcount => ?_, fun hex => ?_⟩, fun hex => ?_,
    fun sc mods hok => ⟨fun hcount => ?_, ?_⟩⟩
  · exact loop_two_classes supers [] none hall hdef (by simpa using hcount)
  · exact loop_final supers [] none hall hdef hex
  · exact loop_unknown supers [] none hex
  · exact loop_no_class supers [] none sc mods hcount hok
  · simpa using loop_modules supers [] none sc mods hok

/-- C4 (counterexample): over the empty dictionary, a supers list naming
the unknown type `Foo` fails with a `NameError`, not the `ProgramError`
the claim states. -/
theorem C4_counterexample :
    errKind (_resolve_supers emptyDict [] [] [unFoo]) = some ErrorKind.NameError ∧
    ErrorKind.NameError ≠ ErrorKind.ProgramError :=
  ⟨rfl, by decide⟩

/-- C4 witness: the theorem applied to a supers list naming the two
fixture classes `Foo` and `Bar`. -/
theorem C4_resolve_supers_witness :
    errKind (_resolve_supers testDict [] [] [unFoo, unBar]) =
      some ErrorKind.ProgramError :=
  (((C4_resolve_supers testDict [] [] [unFoo, unBar]).1 (by decide) (by decide)).1)
    (by decide)

/-- C9 witness: the theorem applied to the parameterless fixture case
`Maybe::None`. -/
theorem C9_enum_case_registration_witness :
    ∃ c, d9out.lookup_class (add_namespace enumCase0.name ("Maybe")) = some c ∧
      c.superclass = some (Superclass.make ("Maybe")
        (if enumCase0.params.isEmpty then
          ([] : List TyParam).map (fun _ => ty.raw ("Never"))
         else ([] : List TyParam).enum.map
          (fun p => ty.typaram_ref p.2.name .Class p.1))) ∧
      c.const_is_obj = enumCase0.params.isEmpty ∧
      c.base.typarams = (if enumCase0.params.isEmpty then [] else []) :=
  C9_enum_case_registration testDict [] ("Maybe") [] enumCase0 d9out rfl

/-- C10 witness: the theorem applied to the fixture `Foo#bar` (declared
return type `Void`) with the fixture converters. -/
theorem C10_void_methods_witness :
    check_return_value testDict voidSig (ty.raw ("Int")) = .ok () ∧
    convert_method_def_ testEnv testMk ("Foo") ("bar") [] none =
      .ok ((⟨voidSig, .ShiikaMethodBody (Hir.expressions [dummyExpr]).voidify, []⟩,
        []), testMk) :=
  ⟨C10_void_methods.1 testDict voidSig (ty.raw ("Int")) rfl,
   C10_void_methods.2 testEnv testMk ("Foo") ("bar") [] none voidSig
     (Hir.expressions [dummyExpr]) (testMk.push_ctx (.methodCtx voidSig none [] []))
     (voidSig, none, [], []) testMk rfl rfl rfl rfl⟩

end Shiika
